import Mathlib

/-!
Verification development for the verse-inserter repository.

Text is modelled as `List Char` (ASCII-oriented: Python's `str.upper`/`str.lower`
are modelled per-character, which coincides with Python on ASCII input).
Machine-level concerns (datetimes, wall-clock durations, file paths, network and
disk I/O) are modelled as opaque data or oracle functions supplied as arguments;
fallible Python code is embedded with `Except`/`Option` results, and a Python
statement that raises an uncaught exception is embedded as an `Except.error`.
-/

/-- Text: a Python string as a list of characters. -/
abbrev Str := List Char

/-- Python `\d` (ASCII). -/
def isDigitCh (c : Char) : Bool := 48 ≤ c.toNat && c.toNat ≤ 57

/-- Python `[A-Za-z]`. -/
def isAlphaCh (c : Char) : Bool :=
  (65 ≤ c.toNat && c.toNat ≤ 90) || (97 ≤ c.toNat && c.toNat ≤ 122)

/-- Python `\w` (ASCII): letters, digits and underscore. -/
def isWordCh (c : Char) : Bool := isAlphaCh c || isDigitCh c || c == '_'

/-- Python `\s` (ASCII): space, tab, newline, carriage return, vertical tab, form feed. -/
def isSpaceCh (c : Char) : Bool :=
  c == ' ' || c == '\t' || c == '\n' || c == '\r' || c == '\x0b' || c == '\x0c'

/-- ASCII lower-casing of one character (Python `str.lower` on ASCII). -/
def lowerCh (c : Char) : Char :=
  if 65 ≤ c.toNat && c.toNat ≤ 90 then Char.ofNat (c.toNat + 32) else c

/-- ASCII upper-casing of one character (Python `str.upper` on ASCII). -/
def upperCh (c : Char) : Char :=
  if 97 ≤ c.toNat && c.toNat ≤ 122 then Char.ofNat (c.toNat - 32) else c

/-- Python `str.strip()`: drop leading and trailing whitespace. -/
def stripChars (s : Str) : Str :=
  ((s.dropWhile isSpaceCh).reverse.dropWhile isSpaceCh).reverse

/-- `dropWhile` never lengthens a list. -/
theorem dropWhile_length_le (p : Char → Bool) (l : List Char) :
    (l.dropWhile p).length ≤ l.length := by
  induction l with
  | nil => simp [List.dropWhile]
  | cons c cs ih =>
    by_cases hc : p c
    · simp only [List.dropWhile, hc]
      exact Nat.le_trans ih (Nat.le_succ _)
    · simp [List.dropWhile, hc]

/-- The decimal digit `d` (0–9) as a character. -/
def digitCh (d : Nat) : Char := Char.ofNat (48 + d)

/-- Decimal rendering, fuel-based so that the kernel can evaluate it
(the fuel `n + 1` always suffices since the argument shrinks by `/ 10`). -/
def natCharsCore : Nat → Nat → Str
  | 0, _ => []
  | fuel + 1, n =>
    if n < 10 then [digitCh n]
    else natCharsCore fuel (n / 10) ++ [digitCh (n % 10)]

/-- Decimal rendering of a natural number (Python `str(n)`). -/
def natChars (n : Nat) : Str := natCharsCore (n + 1) n

/-- Decimal reading of a digit string (Python `int(s)` on a nonempty digit string). -/
def parseNatChars (l : Str) : Nat := l.foldl (fun a c => 10 * a + (c.toNat - 48)) 0

/-- `TranslationType` from src/verse_inserter/models/verse.py: the five supported
translations. -/
inductive TranslationType where
  | NIV | KJV | ESV | NKJV | NLT
deriving DecidableEq, Repr

/-- The API.Bible identifier carried by each `TranslationType` member (its `.value`). -/
def TranslationType.value : TranslationType → Str
  | .NIV => "de4e12af7f28f599-02".toList
  | .KJV => "de4e12af7f28f599-01".toList
  | .ESV => "f421fe261da7624f-01".toList
  | .NKJV => "de4e12af7f28f599-03".toList
  | .NLT => "de4e12af7f28f599-04".toList

/-- `VerseReference` from src/verse_inserter/models/verse.py (the five data
fields; derived properties are separate functions below). -/
structure VerseReference where
  book : Str
  chapter : Nat
  start_verse : Nat
  end_verse : Option Nat
  translation : TranslationType
deriving DecidableEq, Repr

/-- Pydantic construction of a `VerseReference`: `str_strip_whitespace` on the
book, the `Field` bounds (book length 2–50, chapter 1–150, verses 1–176) and the
`validate_verse_range` validator (`end_verse` must exceed `start_verse`).
Validation failure is an `Except.error` (pydantic `ValidationError`). -/
def mkVerseReference (book : Str) (chapter start_verse : Nat)
    (end_verse : Option Nat) (translation : TranslationType) :
    Except String VerseReference :=
  let b := stripChars book
  if b.length < 2 || 50 < b.length then .error "book length out of range"
  else if chapter < 1 || 150 < chapter then .error "chapter out of range"
  else if start_verse < 1 || 176 < start_verse then .error "start_verse out of range"
  else
    match end_verse with
    | none => .ok ⟨b, chapter, start_verse, none, translation⟩
    | some e =>
      if e < 1 || 176 < e then .error "end_verse out of range"
      else if e ≤ start_verse then
        .error "end_verse must be greater than start_verse"
      else .ok ⟨b, chapter, start_verse, some e, translation⟩

/-- `VerseReference.canonical_reference`: `"Book C:V"` or `"Book C:V-V2"`.
The source guards the range suffix with Python truthiness (`if self.end_verse:`),
so an `end_verse` of `0` renders like a single verse. -/
def VerseReference.canonical_reference (r : VerseReference) : Str :=
  let base := r.book ++ ' ' :: natChars r.chapter ++ ':' :: natChars r.start_verse
  match r.end_verse with
  | some e => if e ≠ 0 then base ++ '-' :: natChars e else base
  | none => base

/-- `VerseReference.is_range`. -/
def VerseReference.is_range (r : VerseReference) : Bool := r.end_verse.isSome

/-- Tail of `REFERENCE_PATTERN` after the book group:
`\s+(\d+):(\d+)(?:-(\d+))?\s*$` (with `$` modelled as end of input).
Returns chapter, start verse and optional end verse. -/
def refMatchTail (s : Str) : Option (Nat × Nat × Option Nat) :=
  let sp := s.takeWhile isSpaceCh
  if sp.isEmpty then none else
  let s1 := s.dropWhile isSpaceCh
  let d1 := s1.takeWhile isDigitCh
  if d1.isEmpty then none else
  match s1.dropWhile isDigitCh with
  | ':' :: s2 =>
    let d2 := s2.takeWhile isDigitCh
    if d2.isEmpty then none else
    let rest := s2.dropWhile isDigitCh
    match rest with
    | '-' :: s3 =>
      let d3 := s3.takeWhile isDigitCh
      if d3.isEmpty then none
      else if (s3.dropWhile isDigitCh).dropWhile isSpaceCh = [] then
        some (parseNatChars d1, parseNatChars d2, some (parseNatChars d3))
      else none
    | _ =>
      if rest.dropWhile isSpaceCh = [] then
        some (parseNatChars d1, parseNatChars d2, none)
      else none
  | _ => none

/-- `REFERENCE_PATTERN` of `VerseReference`:
`^\s*(\d?\s*[A-Za-z]+\.?)\s+(\d+):(\d+)(?:-(\d+))?\s*$`.
The `\d?`, `\s*` and `\.?` pieces need no backtracking search: whenever the
greedy choice fails, the backtracked alternative places a digit, space or dot
where the following atom requires a different character class, so it fails too.
Returns the captured book group and the numeric groups. -/
def refPatternMatch (s : Str) : Option (Str × Nat × Nat × Option Nat) :=
  let s0 := s.dropWhile isSpaceCh
  let (dpart, s1) :=
    match s0 with
    | c :: rest => if isDigitCh c then ([c], rest) else ([], s0)
    | [] => (([] : Str), s0)
  let sp := s1.takeWhile isSpaceCh
  let s2 := s1.dropWhile isSpaceCh
  let letters := s2.takeWhile isAlphaCh
  if letters.isEmpty then none else
  let s3 := s2.dropWhile isAlphaCh
  let (dot, s4) :=
    match s3 with
    | c :: rest => if c = '.' then (['.'], rest) else (([] : Str), s3)
    | [] => (([] : Str), s3)
  match refMatchTail s4 with
  | some (ch, v1, v2) => some (dpart ++ sp ++ letters ++ dot, ch, v1, v2)
  | none => none

/-- `VerseReference.parse`: strip the input, match `REFERENCE_PATTERN`, read the
numeric groups with `int`, and construct via pydantic validation. -/
def VerseReference.parse (reference : Str) (translation : TranslationType) :
    Except String VerseReference :=
  match refPatternMatch (stripChars reference) with
  | none => .error "Invalid scripture reference format"
  | some (book, ch, v1, v2) =>
    mkVerseReference (stripChars book) ch v1 v2 translation

/-- `Verse` from src/verse_inserter/models/verse.py (fields used by document
processing; the retrieval timestamp and copyright metadata carry no logic and
are not modelled). -/
structure Verse where
  reference : VerseReference
  text : Str
  translation : TranslationType
deriving DecidableEq, Repr

/-- `Verse.formatted_text`: canonical reference, em dash, text. -/
def Verse.formatted_text (v : Verse) : Str :=
  v.reference.canonical_reference ++ ' ' :: '—' :: ' ' :: v.text

/-- `Placeholder.Status` from the data model. -/
inductive PlaceholderStatus where
  | PENDING | FETCHING | COMPLETED | FAILED | SKIPPED
deriving DecidableEq, Repr

/-- `Placeholder` from the data model: one matched scripture marker. -/
structure Placeholder where
  raw_text : Str
  reference : VerseReference
  position : Nat
  paragraph_index : Nat
  status : PlaceholderStatus := .PENDING
deriving DecidableEq, Repr

/-- `Placeholder.unique_key`: canonical reference plus translation API id. -/
def Placeholder.unique_key (p : Placeholder) : Str :=
  p.reference.canonical_reference ++ ':' :: p.reference.translation.value

/-- Drop a literal prefix, returning the remainder on success. -/
def afterPrefixStr : Str → Str → Option Str
  | [], s => some s
  | _, [] => none
  | p :: ps, c :: cs => if p = c then afterPrefixStr ps cs else none

/-- Numeric groups matched by a placeholder pattern at one position. -/
structure PMatch where
  book : Str
  chapter : Nat
  start_verse : Nat
  end_verse : Option Nat
deriving DecidableEq, Repr

/-- Tail of the placeholder patterns after the book group:
`\s+(\d+)\s*:\s*(\d+)(?:\s*-\s*(\d+))?\s*` followed by the closing delimiter
(`}}`, `)` or `]`). When the optional range group matches but the closer does
not follow, the regex backtracks to the no-range branch, which then fails on
the leftover `-`; so a single greedy attempt is equivalent. Returns the numeric
groups and the remainder after the whole match. -/
def phMatchTail (closer : Str) (s : Str) : Option (Nat × Nat × Option Nat × Str) :=
  if (s.takeWhile isSpaceCh).isEmpty then none else
  let s1 := s.dropWhile isSpaceCh
  let d1 := s1.takeWhile isDigitCh
  if d1.isEmpty then none else
  match (s1.dropWhile isDigitCh).dropWhile isSpaceCh with
  | ':' :: s2 =>
    let s3 := s2.dropWhile isSpaceCh
    let d2 := s3.takeWhile isDigitCh
    if d2.isEmpty then none else
    let s4 := s3.dropWhile isDigitCh
    let tryRange : Option (Nat × Str) :=
      match s4.dropWhile isSpaceCh with
      | '-' :: t1 =>
        let t2 := t1.dropWhile isSpaceCh
        let d3 := t2.takeWhile isDigitCh
        if d3.isEmpty then none
        else some (parseNatChars d3, t2.dropWhile isDigitCh)
      | _ => none
    match tryRange with
    | some (e, t) =>
      match afterPrefixStr closer (t.dropWhile isSpaceCh) with
      | some rem => some (parseNatChars d1, parseNatChars d2, some e, rem)
      | none => none
    | none =>
      match afterPrefixStr closer (s4.dropWhile isSpaceCh) with
      | some rem => some (parseNatChars d1, parseNatChars d2, none, rem)
      | none => none
  | _ => none

/-- A nonempty `takeWhile` prefix forces `dropWhile` to shorten the list;
used for termination of the book-chunk scanner. -/
theorem dropWhile_dropWhile_length_lt (p q : Char → Bool) (s : Str)
    (h : s.takeWhile p ≠ []) : ((s.dropWhile p).dropWhile q).length < s.length := by
  cases s with
  | nil => simp [List.takeWhile] at h
  | cons c cs =>
    by_cases hc : p c
    · have h1 : (c :: cs).dropWhile p = cs.dropWhile p := by simp [List.dropWhile, hc]
      rw [h1]
      have h2 : ((cs.dropWhile p).dropWhile q).length ≤ (cs.dropWhile p).length :=
        dropWhile_length_le q _
      have h3 : (cs.dropWhile p).length ≤ cs.length := dropWhile_length_le p cs
      simp only [List.length_cons]
      omega
    · simp [List.takeWhile, hc] at h

/-- The `(?:\s+\w+)*` part of the book group, with the regex's greedy
backtracking: prefer consuming one more `\s+\w+` chunk, and fall back to
matching the tail when the longer book cannot complete the match. Fuel-based
structural recursion (each chunk consumes at least two characters, so
`s.length` steps always suffice and the fuel-exhausted arm is unreachable
from the wrapper). -/
def phBookChunksCore (closer : Str) : Nat → Str → Str → Option (PMatch × Str)
  | 0, book, s =>
    (phMatchTail closer s).map (fun t => (⟨book, t.1, t.2.1, t.2.2.1⟩, t.2.2.2))
  | fuel + 1, book, s =>
    let tryHere : Option (PMatch × Str) :=
      (phMatchTail closer s).map (fun t => (⟨book, t.1, t.2.1, t.2.2.1⟩, t.2.2.2))
    let sp := s.takeWhile isSpaceCh
    if sp.isEmpty then tryHere
    else
      let s1 := s.dropWhile isSpaceCh
      let w := s1.takeWhile isWordCh
      if w.isEmpty then tryHere
      else
        match phBookChunksCore closer fuel (book ++ sp ++ w) (s1.dropWhile isWordCh) with
        | some r => some r
        | none => tryHere

/-- Wrapper supplying sufficient fuel. -/
def phBookChunks (closer : Str) (book : Str) (s : Str) : Option (PMatch × Str) :=
  phBookChunksCore closer s.length book s

/-- Book group plus tail: `((?:\d\s*)?\w+(?:\s+\w+)*)` then the tail, with the
`(?:\d\s*)?` option tried greedily first (digit consumed) and backtracked to
the empty branch on failure, exactly as the regex engine does. -/
def phBookAndTail (closer : Str) (s : Str) : Option (PMatch × Str) :=
  let withDigit : Option (PMatch × Str) :=
    match s with
    | c :: rest =>
      if isDigitCh c then
        let sp := rest.takeWhile isSpaceCh
        let s1 := rest.dropWhile isSpaceCh
        let w := s1.takeWhile isWordCh
        if w.isEmpty then none
        else phBookChunks closer (c :: sp ++ w) (s1.dropWhile isWordCh)
      else none
    | [] => none
  match withDigit with
  | some r => some r
  | none =>
    let w := s.takeWhile isWordCh
    if w.isEmpty then none
    else phBookChunks closer w (s.dropWhile isWordCh)

/-- `PLACEHOLDER_PATTERN` tried at one position: `\{\{\s*` book-and-tail `\}\}`. -/
def matchPrimaryAt (s : Str) : Option (PMatch × Str) :=
  match afterPrefixStr ['{', '{'] s with
  | some s1 => phBookAndTail ['}', '}'] (s1.dropWhile isSpaceCh)
  | none => none

/-- First `ALTERNATIVE_PATTERNS` entry tried at one position: `\(\s*` … `\)`. -/
def matchParenAt (s : Str) : Option (PMatch × Str) :=
  match afterPrefixStr ['('] s with
  | some s1 => phBookAndTail [')'] (s1.dropWhile isSpaceCh)
  | none => none

/-- Second `ALTERNATIVE_PATTERNS` entry tried at one position: `\[\s*` … `\]`. -/
def matchBracketAt (s : Str) : Option (PMatch × Str) :=
  match afterPrefixStr ['['] s with
  | some s1 => phBookAndTail [']'] (s1.dropWhile isSpaceCh)
  | none => none

/-- `re.finditer`: scan left to right, emit non-overlapping matches, resuming
after each match; on a match the scan advances by the match length (at least
one character), otherwise by one. Produces `(groups, start, length)` triples.
Fuel-based (each step consumes at least one character). -/
def scanIterCore (matchAt : Str → Option (PMatch × Str)) :
    Nat → Str → Nat → List (PMatch × Nat × Nat)
  | 0, _, _ => []
  | fuel + 1, s, pos =>
    match s with
    | [] => []
    | c :: rest =>
      match matchAt (c :: rest) with
      | some (a, rem) =>
        if rem.length < (c :: rest).length then
          (a, pos, (c :: rest).length - rem.length) ::
            scanIterCore matchAt fuel rem (pos + ((c :: rest).length - rem.length))
        else scanIterCore matchAt fuel rest (pos + 1)
      | none => scanIterCore matchAt fuel rest (pos + 1)

/-- Wrapper supplying sufficient fuel. -/
def scanIter (matchAt : Str → Option (PMatch × Str)) (s : Str) (pos : Nat) :
    List (PMatch × Nat × Nat) :=
  scanIterCore matchAt s.length s pos

/-- Python `str.split()` with no argument: split on whitespace runs, dropping
empty pieces. Fuel-based (each step consumes at least one character). -/
def pySplitCore : Nat → Str → List Str
  | 0, _ => []
  | fuel + 1, s =>
    match s with
    | [] => []
    | c :: rest =>
      if isSpaceCh c then pySplitCore fuel rest
      else (c :: rest.takeWhile (fun x => !(isSpaceCh x))) ::
        pySplitCore fuel (rest.dropWhile (fun x => !(isSpaceCh x)))

/-- Wrapper supplying sufficient fuel. -/
def pySplit (s : Str) : List Str := pySplitCore s.length s

/-- `" ".join(s.split())`: whitespace normalization used on book names. -/
def normalizeWs (s : Str) : Str := List.intercalate [' '] (pySplit s)

/-- `ParsingStatistics` from src/verse_inserter/core/placeholder_parser.py.
`books_referenced` is a Python `set`, modelled as a duplicate-free list. -/
structure ParsingStatistics where
  total_found : Nat := 0
  unique_references : Nat := 0
  invalid_count : Nat := 0
  duplicate_count : Nat := 0
  books_referenced : List Str := []
deriving DecidableEq, Repr

/-- Set insertion for the `books_referenced` set. -/
def insertBook (bs : List Str) (b : Str) : List Str := if b ∈ bs then bs else bs ++ [b]

/-- The configuration flags of `PlaceholderParser.__init__` (the mutable
statistics travel separately through `parse_text`). -/
structure PlaceholderParser where
  default_translation : TranslationType := .NIV
  enable_alternative_formats : Bool := true
  normalize_whitespace : Bool := true

/-- `PlaceholderParser._create_placeholder_from_match`: normalize the book
name (when configured), build the `VerseReference` with the default
translation, and wrap it in a `Placeholder`; a validation failure yields
`none` (the caller counts it as invalid, as the source does via the shared
statistics object). -/
def createPlaceholderFromMatch (P : PlaceholderParser) (m : PMatch) (raw : Str)
    (paragraph_index position_offset mStart : Nat) : Option Placeholder :=
  let book := if P.normalize_whitespace then normalizeWs m.book else m.book
  match mkVerseReference (stripChars book) m.chapter m.start_verse m.end_verse
      P.default_translation with
  | .ok ref => some ⟨raw, ref, mStart + position_offset, paragraph_index, .PENDING⟩
  | .error _ => none

/-- Intermediate state of one `parse_text` call: collected placeholders, the
set of seen unique keys, and the running statistics. -/
structure ParseState where
  placeholders : List Placeholder
  seen : List Str
  stats : ParsingStatistics

/-- All matches of one pattern over a text, with the raw matched text and the
match start. -/
def matchesOf (matchAt : Str → Option (PMatch × Str)) (text : Str) :
    List (PMatch × Str × Nat) :=
  (scanIter matchAt text 0).map (fun t => (t.1, (text.drop t.2.1).take t.2.2, t.2.1))

/-- The primary-pattern loop body of `parse_text`: duplicates of an
already-seen unique key increment `duplicate_count`; new keys are appended. -/
def primaryStep (P : PlaceholderParser) (paragraph_index position_offset : Nat)
    (st : ParseState) (t : PMatch × Str × Nat) : ParseState :=
  match createPlaceholderFromMatch P t.1 t.2.1 paragraph_index position_offset t.2.2 with
  | none => { st with stats := { st.stats with invalid_count := st.stats.invalid_count + 1 } }
  | some p =>
    if p.unique_key ∈ st.seen then
      { st with stats := { st.stats with duplicate_count := st.stats.duplicate_count + 1 } }
    else
      { placeholders := st.placeholders ++ [p]
        seen := st.seen ++ [p.unique_key]
        stats := { st.stats with
          books_referenced := insertBook st.stats.books_referenced p.reference.book } }

/-- The alternative-pattern loop body of `parse_text`: an already-seen unique
key is skipped with no statistics update at all. -/
def altStep (P : PlaceholderParser) (paragraph_index position_offset : Nat)
    (st : ParseState) (t : PMatch × Str × Nat) : ParseState :=
  match createPlaceholderFromMatch P t.1 t.2.1 paragraph_index position_offset t.2.2 with
  | none => { st with stats := { st.stats with invalid_count := st.stats.invalid_count + 1 } }
  | some p =>
    if p.unique_key ∈ st.seen then st
    else
      { placeholders := st.placeholders ++ [p]
        seen := st.seen ++ [p.unique_key]
        stats := { st.stats with
          books_referenced := insertBook st.stats.books_referenced p.reference.book } }

/-- Stable insertion of a placeholder after all list entries with a smaller
or equal position. -/
def insertSorted (p : Placeholder) : List Placeholder → List Placeholder
  | [] => [p]
  | q :: rest =>
    if q.position ≤ p.position then q :: insertSorted p rest else p :: q :: rest

/-- `placeholders.sort(key=lambda p: p.position)`: Python's sort is stable, so
any stable sort by position models it; this is stable insertion sort. -/
def sortByPosition (l : List Placeholder) : List Placeholder :=
  l.foldl (fun acc p => insertSorted p acc) []

/-- `PlaceholderParser.parse_text`: primary pattern first, then (when enabled)
the parenthesis and bracket patterns over the same text; statistics accumulate
onto the parser's running `ParsingStatistics` (`total_found` and
`invalid_count`/`duplicate_count` add, `unique_references` is assigned this
call's distinct-key count); the result list is sorted by position. -/
def parse_text (P : PlaceholderParser) (stats0 : ParsingStatistics) (text : Str)
    (paragraph_index : Nat := 0) (position_offset : Nat := 0) :
    List Placeholder × ParsingStatistics :=
  let st1 := (matchesOf matchPrimaryAt text).foldl
    (primaryStep P paragraph_index position_offset)
    ⟨[], [], stats0⟩
  let st2 :=
    if P.enable_alternative_formats then
      let stP := (matchesOf matchParenAt text).foldl
        (altStep P paragraph_index position_offset) st1
      (matchesOf matchBracketAt text).foldl
        (altStep P paragraph_index position_offset) stP
    else st1
  let stats := { st2.stats with
    total_found := st2.stats.total_found + st2.placeholders.length
    unique_references := st2.seen.length }
  (sortByPosition st2.placeholders, stats)

/-- Python exceptions appearing in the embedded control flow. -/
inductive PyErr where
  | attributeError
  | zeroDivisionError
  | typeError
  | cacheReadError
  | apiError
deriving DecidableEq, Repr

/-- Python float division, which raises `ZeroDivisionError` on a zero
denominator (rationals stand in for IEEE floats; every claim about these
rates concerns the exact value 0). -/
def pyDiv (a b : ℚ) : Except PyErr ℚ :=
  if b = 0 then .error .zeroDivisionError else .ok (a / b)

/-- A Word document as the document processor traverses it: body paragraphs
and tables (a table is rows of cells, a cell is a list of paragraphs).
Headers and footers carry no distinct logic in the traversal and are left
empty in the model. -/
structure Document where
  paragraphs : List Str
  tables : List (List (List (List Str)))
deriving DecidableEq, Repr

/-- `DocumentProcessor.find_all_placeholders`: scan every body paragraph (the
paragraph index is the body index), then every table's every row's every
cell's every paragraph (the paragraph index is the index inside the cell).
The placeholder list returned by `parse_text` does not depend on the running
statistics, so those are not threaded here. -/
def find_all_placeholders (P : PlaceholderParser) (doc : Document)
    (scan_tables : Bool := true) : List Placeholder :=
  let body := doc.paragraphs.enum.flatMap (fun t => (parse_text P {} t.2 t.1 0).1)
  let tablePh :=
    if scan_tables then
      doc.tables.flatMap (fun table => table.flatMap (fun row =>
        row.flatMap (fun cell =>
          cell.enum.flatMap (fun t => (parse_text P {} t.2 t.1 0).1))))
    else []
  body ++ tablePh

/-- Python `str.replace(old, new)`: replace every non-overlapping occurrence,
left to right, without rescanning inserted text. (`old` is never empty at the
call sites: a placeholder's raw text starts with its delimiter.) Fuel-based
(each step consumes at least one character of `s`). -/
def listReplaceCore (old new : Str) : Nat → Str → Str
  | 0, s => s
  | fuel + 1, s =>
    if old.isEmpty then s
    else
      match s with
      | [] => []
      | c :: rest =>
        if old.isPrefixOf (c :: rest) then
          new ++ listReplaceCore old new fuel ((c :: rest).drop old.length)
        else
          c :: listReplaceCore old new fuel rest

/-- Wrapper supplying sufficient fuel. -/
def listReplace (s old new : Str) : Str := listReplaceCore old new s.length s

/-- Python `sub in s` for strings. -/
def containsSub : Str → Str → Bool
  | s, sub =>
    if sub.isPrefixOf s then true
    else
      match s with
      | [] => false
      | _ :: rest => containsSub rest sub

/-- `DocumentProcessor._replace_in_document`: looks only at the body paragraph
at the placeholder's `paragraph_index`, and rewrites it only when the raw text
is still present there. Formatting application touches no text and is not
modelled. -/
def replaceInDocument (doc : Document) (p : Placeholder) (replacement : Str) :
    Document :=
  if p.paragraph_index < doc.paragraphs.length then
    let para := doc.paragraphs.getD p.paragraph_index []
    if containsSub para p.raw_text then
      { doc with paragraphs :=
          doc.paragraphs.set p.paragraph_index (listReplace para p.raw_text replacement) }
    else doc
  else doc

/-- `ProcessingResult` from src/verse_inserter/core/document_processor.py
(`output_file` is set only on save and `processing_time` is wall-clock time;
neither carries logic, so they are fixed at `none`/`0`). -/
structure ProcessingResult where
  success : Bool
  placeholders_found : Nat
  placeholders_replaced : Nat
  placeholders_failed : Nat
  errors : List Str
deriving DecidableEq, Repr

/-- `ProcessingResult.success_rate` with its zero-denominator guard. -/
def ProcessingResult.success_rate (r : ProcessingResult) : Except PyErr ℚ :=
  if r.placeholders_found = 0 then .ok 0
  else (pyDiv (r.placeholders_replaced : ℚ) (r.placeholders_found : ℚ)).map (· * 100)

/-- The sentinel text inserted for a missing verse:
`"[Verse Not Found: <canonical reference>]"`. -/
def notFoundSentinel (key : Str) : Str :=
  "[Verse Not Found: ".toList ++ key ++ "]".toList

/-- One iteration of the `replace_placeholders` loop: look the canonical
reference up in the verse map; on a hit insert the verse's formatted text, on
a miss insert the sentinel, record the error and count a failure. The state is
`(document, replaced, failed, errors)`. -/
def replaceStep (lookupV : Str → Option Verse) (st : Document × Nat × Nat × List Str)
    (p : Placeholder) : Document × Nat × Nat × List Str :=
  let key := p.reference.canonical_reference
  match lookupV key with
  | none =>
    (replaceInDocument st.1 p (notFoundSentinel key), st.2.1, st.2.2.1 + 1,
      st.2.2.2 ++ ["Verse not found in map: ".toList ++ key])
  | some v =>
    (replaceInDocument st.1 p v.formatted_text, st.2.1 + 1, st.2.2.1, st.2.2.2)

/-- `DocumentProcessor.replace_placeholders`: re-scan the document, process
every placeholder in scan order, and return the rewritten document together
with a `ProcessingResult` whose `success` is "no failures". No step of the
embedded loop can raise, so the source's per-placeholder `except` arm is
unreachable here. -/
def replace_placeholders (P : PlaceholderParser) (doc : Document)
    (lookupV : Str → Option Verse) : Document × ProcessingResult :=
  let placeholders := find_all_placeholders P doc
  let st := placeholders.foldl (replaceStep lookupV) (doc, 0, 0, [])
  (st.1,
    { success := st.2.2.1 == 0
      placeholders_found := placeholders.length
      placeholders_replaced := st.2.1
      placeholders_failed := st.2.2.1
      errors := st.2.2.2 })

/-- Modelled from the spec: the `TranslationType` of the missing
`src/models/verse.py` (imported by src/core/cache_manager.py as
`..models.verse`) carries "a short code (e.g. "NIV")" per spec §3; the cache
key function reads it as `reference.translation.code`. -/
def TranslationType.code : TranslationType → Str
  | .NIV => "NIV".toList
  | .KJV => "KJV".toList
  | .ESV => "ESV".toList
  | .NKJV => "NKJV".toList
  | .NLT => "NLT".toList

/-- `CacheManager._make_key`: `"{translation_code}:{canonical_reference}"`. -/
def make_key (ref : VerseReference) : Str :=
  ref.translation.code ++ ':' :: ref.canonical_reference

/-- `CacheManager.get` from src/core/cache_manager.py: compute the key (a pure
string build), then read the disk cache inside `try`; any read error is caught
and turned into `None`. The disk cache is an oracle that may fail on any key. -/
def CacheManager.get (backend : Str → Except PyErr (Option Verse))
    (ref : VerseReference) : Except PyErr (Option Verse) :=
  let key := make_key ref
  match backend key with
  | .ok v => .ok v
  | .error _ => .ok none

/-- The `reference.canonical` attribute read by the provider's logging
f-strings: `VerseReference` (src/verse_inserter/models/verse.py) defines
`canonical_reference` but no attribute named `canonical`, so evaluating the
f-string raises `AttributeError`. -/
def canonicalAttr (_ : VerseReference) : Except PyErr Str := .error .attributeError

/-- The offline database as `OfflineVerseProvider._try_offline` consumes it:
an existence check per translation and point/range lookups that may raise. -/
structure OfflineDb where
  has_translation : TranslationType → Bool
  get_verse : VerseReference → Except PyErr (Option Verse)
  get_verse_range : VerseReference → Except PyErr (Option Verse)

/-- `OfflineVerseProvider._try_offline`: missing translation gives `None`;
`if reference.end_verse:` (Python truthiness) picks the range lookup; any
exception is caught and logged, yielding `None`. -/
def try_offline (db : OfflineDb) (ref : VerseReference) : Option Verse :=
  if !(db.has_translation ref.translation) then none
  else
    match
      (match ref.end_verse with
       | some e => if e ≠ 0 then db.get_verse_range ref else db.get_verse ref
       | none => db.get_verse ref) with
    | .ok v => v
    | .error _ => none

/-- The three hit counters of `OfflineVerseProvider` plus its configuration. -/
structure ProviderState where
  prefer_offline : Bool := true
  offline_hits : Nat := 0
  cache_hits : Nat := 0
  api_calls : Nat := 0
deriving DecidableEq, Repr

/-- `OfflineVerseProvider.fetch_verse`: offline (when preferred), then cache,
then API. Each hit path increments its counter and then evaluates a debug
f-string reading `reference.canonical` — which raises. On the API path the
same read sits inside the `try`, and the `except` handler's own f-string
reads `reference.canonical` again, so the `AttributeError` escapes there too.
Counter mutations made before the raise persist (they are on `self`).
The cache argument follows the `CacheManager.get` contract (never raises);
`none` models no configured cache manager. -/
def fetch_verse (st : ProviderState) (db : OfflineDb)
    (cache : Option (VerseReference → Option Verse))
    (api : VerseReference → Except PyErr Verse) (ref : VerseReference) :
    ProviderState × Except PyErr (Option Verse) :=
  let offlineHit : Option Verse :=
    if st.prefer_offline then try_offline db ref else none
  match offlineHit with
  | some v =>
    let st1 := { st with offline_hits := st.offline_hits + 1 }
    (st1, (canonicalAttr ref).map (fun _ => some v))
  | none =>
    let cacheHit : Option Verse :=
      match cache with
      | some c => c ref
      | none => none
    match cacheHit with
    | some v =>
      let st1 := { st with cache_hits := st.cache_hits + 1 }
      (st1, (canonicalAttr ref).map (fun _ => some v))
    | none =>
      match api ref with
      | .ok v =>
        let st1 := { st with api_calls := st.api_calls + 1 }
        -- debug f-string raises inside `try`; the handler f-string re-raises
        (st1, (canonicalAttr ref).map (fun _ => some v))
      | .error _ =>
        -- the handler f-string raises before `return None`
        (st, (canonicalAttr ref).map (fun _ => none))

/-- The per-file value stored by `BatchProcessor._collect_all_placeholders`:
for a readable file it stores the return value of `find_all_placeholders` —
a Python *list* of placeholders — and for an unreadable file the literal `{}`.
The surrounding code expects a dict keyed by `VerseReference`. -/
inductive PlaceholderStore where
  | pylist (l : List Placeholder)
  | pydictEmpty
deriving DecidableEq, Repr

/-- `placeholders.keys()` as `process_batch` step 2 evaluates it: a Python
list has no `.keys()` method, so the `pylist` case raises `AttributeError`;
the empty dict yields no keys. -/
def storeKeys : PlaceholderStore → Except PyErr (List VerseReference)
  | .pylist _ => .error .attributeError
  | .pydictEmpty => .ok []

/-- `len(placeholders)` on the stored value. -/
def storeLen : PlaceholderStore → Nat
  | .pylist l => l.length
  | .pydictEmpty => 0

/-- Python `ref in placeholders` inside `_process_single_file`'s filtering
comprehension: against the stored *list* it compares a `VerseReference` to
each `Placeholder` (unequal types, always false); against the empty dict it
is false. -/
def storeContainsRef : PlaceholderStore → VerseReference → Bool
  | .pylist _, _ => false
  | .pydictEmpty, _ => false

/-- Python `==` between a `VerseReference` dict key and the `str` lookup key
used by `replace_placeholders`: different types, never equal. -/
def refEqStr (_ : VerseReference) (_ : Str) : Bool := false

/-- `BatchProcessor._collect_all_placeholders`: a file that loads stores the
placeholder list, a file whose load raises stores `{}`. An unloadable input
file is modelled as `none`. -/
def collect_all_placeholders (P : PlaceholderParser) (files : List (Option Document)) :
    List PlaceholderStore :=
  files.map (fun f =>
    match f with
    | some d => .pylist (find_all_placeholders P d)
    | none => .pydictEmpty)

/-- Step 2 of `process_batch`: union the key views of all stored values
(raising on the first list-valued store). The result is a deduplicated set. -/
def unionRefs : List PlaceholderStore → Except PyErr (List VerseReference)
  | [] => .ok []
  | s :: rest => do
    let ks ← storeKeys s
    let tail ← unionRefs rest
    pure (ks.foldl (fun acc r => if r ∈ acc then acc else acc ++ [r]) tail)

/-- `BatchProcessor._fetch_all_verses`: cache first when configured, then the
API, skipping failed fetches; returns the verse map together with the number
of API fetch calls issued. Cache write-back mutates only the cache and is not
modelled. -/
def fetch_all_verses (cache : Option (VerseReference → Option Verse))
    (api : VerseReference → Except PyErr Verse) (refs : List VerseReference) :
    List (VerseReference × Verse) × Nat :=
  refs.foldl (fun acc ref =>
    match (match cache with | some c => c ref | none => none) with
    | some v => (acc.1 ++ [(ref, v)], acc.2)
    | none =>
      match api ref with
      | .ok v => (acc.1 ++ [(ref, v)], acc.2 + 1)
      | .error _ => (acc.1, acc.2 + 1))
    ([], 0)

/-- A value that is an `int` in the working path but may hold the
`ProcessingResult` object that `_process_single_file` assigns to
`verses_inserted` (dataclasses do not enforce the annotation). -/
inductive PyIntOrObj where
  | int (n : Nat)
  | obj (r : ProcessingResult)
deriving DecidableEq, Repr

/-- `BatchFileResult` (output path and error message reduced to presence). -/
structure BatchFileResult where
  success : Bool
  placeholders_found : Nat := 0
  verses_inserted : PyIntOrObj := .int 0
  has_error_message : Bool := false
deriving DecidableEq, Repr

/-- `BatchProcessingResult` from src/verse_inserter/core/batch_processor.py. -/
structure BatchProcessingResult where
  total_files : Nat
  successful : Nat
  failed : Nat
  total_placeholders : Nat := 0
  total_verses_inserted : Nat := 0
  file_results : List BatchFileResult := []
deriving DecidableEq, Repr

/-- `BatchProcessingResult.success_rate` with its zero-denominator guard. -/
def BatchProcessingResult.success_rate (r : BatchProcessingResult) : Except PyErr ℚ :=
  if r.total_files = 0 then .ok 0
  else (pyDiv (r.successful : ℚ) (r.total_files : ℚ)).map (· * 100)

/-- `ParsingStatistics.success_rate` with its zero-denominator guard
(`total_found - invalid_count` is Python int subtraction, hence `ℤ`). -/
def ParsingStatistics.success_rate (s : ParsingStatistics) : Except PyErr ℚ :=
  if s.total_found = 0 then .ok 0
  else (pyDiv ((s.total_found : ℚ) - (s.invalid_count : ℚ)) (s.total_found : ℚ)).map (· * 100)

/-- `BatchProcessor._process_single_file`: a load failure becomes a failed
result; otherwise the shared verse map is filtered by (type-mismatched)
membership in the stored value, the document's placeholders are replaced via
a canonical-string lookup into the `VerseReference`-keyed filtered dict
(which can never hit), and the `ProcessingResult` object itself lands in
`verses_inserted`. -/
def process_single_file (P : PlaceholderParser) (f : Option Document)
    (store : PlaceholderStore) (verses : List (VerseReference × Verse)) :
    BatchFileResult :=
  match f with
  | none => { success := false, has_error_message := true }
  | some d =>
    let available := verses.filter (fun t => storeContainsRef store t.1)
    let res := replace_placeholders P d
      (fun k => (available.find? (fun t => refEqStr t.1 k)).map (fun t => t.2))
    { success := true
      placeholders_found := storeLen store
      verses_inserted := .obj res.2 }

/-- Python `int + value` for the batch accumulator
(`result.total_verses_inserted += file_result.verses_inserted`): adding a
`ProcessingResult` object to an int raises `TypeError`. -/
def pyAddNat (a : Nat) (b : PyIntOrObj) : Except PyErr Nat :=
  match b with
  | .int n => .ok (a + n)
  | .obj _ => .error .typeError

/-- `BatchProcessor.process_batch`: collect per-file placeholder stores, union
the unique references (step 2 — this is where `.keys()` is called on a list),
fetch every unique reference once, then process each file, counting successes
and failures. Returns the final result together with the number of API fetch
calls made during the batch. -/
def process_batch (P : PlaceholderParser)
    (cache : Option (VerseReference → Option Verse))
    (api : VerseReference → Except PyErr Verse)
    (files : List (Option Document)) :
    Except PyErr (BatchProcessingResult × Nat) := do
  let stores := collect_all_placeholders P files
  let refs ← unionRefs stores
  let fetched := fetch_all_verses cache api refs
  let init : BatchProcessingResult :=
    { total_files := files.length, successful := 0, failed := 0 }
  let res ← (stores.zip files).foldlM (fun acc t => do
      let fr := process_single_file P t.2 t.1 fetched.1
      if fr.success then
        let tv ← pyAddNat acc.total_verses_inserted fr.verses_inserted
        pure { acc with
          successful := acc.successful + 1
          total_placeholders := acc.total_placeholders + fr.placeholders_found
          total_verses_inserted := tv
          file_results := acc.file_results ++ [fr] }
      else
        pure { acc with
          failed := acc.failed + 1
          file_results := acc.file_results ++ [fr] })
    init
  pure (res, fetched.2)
/-- The `abbreviations` table of `VerseReference._get_book_abbreviation`
(src/verse_inserter/models/verse.py). -/
def modelAbbrevTable : List (Str × Str) := [
  ("genesis".toList, "GEN".toList),
  ("gen".toList, "GEN".toList),
  ("exodus".toList, "EXO".toList),
  ("exo".toList, "EXO".toList),
  ("leviticus".toList, "LEV".toList),
  ("lev".toList, "LEV".toList),
  ("numbers".toList, "NUM".toList),
  ("num".toList, "NUM".toList),
  ("deuteronomy".toList, "DEU".toList),
  ("deut".toList, "DEU".toList),
  ("joshua".toList, "JOS".toList),
  ("josh".toList, "JOS".toList),
  ("judges".toList, "JDG".toList),
  ("judg".toList, "JDG".toList),
  ("ruth".toList, "RUT".toList),
  ("1 samuel".toList, "1SA".toList),
  ("1sam".toList, "1SA".toList),
  ("2 samuel".toList, "2SA".toList),
  ("2sam".toList, "2SA".toList),
  ("1 kings".toList, "1KI".toList),
  ("1ki".toList, "1KI".toList),
  ("2 kings".toList, "2KI".toList),
  ("2ki".toList, "2KI".toList),
  ("1 chronicles".toList, "1CH".toList),
  ("1chr".toList, "1CH".toList),
  ("2 chronicles".toList, "2CH".toList),
  ("2chr".toList, "2CH".toList),
  ("ezra".toList, "EZR".toList),
  ("nehemiah".toList, "NEH".toList),
  ("neh".toList, "NEH".toList),
  ("esther".toList, "EST".toList),
  ("job".toList, "JOB".toList),
  ("psalm".toList, "PSA".toList),
  ("psalms".toList, "PSA".toList),
  ("psa".toList, "PSA".toList),
  ("proverbs".toList, "PRO".toList),
  ("prov".toList, "PRO".toList),
  ("ecclesiastes".toList, "ECC".toList),
  ("eccl".toList, "ECC".toList),
  ("song of solomon".toList, "SNG".toList),
  ("song".toList, "SNG".toList),
  ("isaiah".toList, "ISA".toList),
  ("isa".toList, "ISA".toList),
  ("jeremiah".toList, "JER".toList),
  ("jer".toList, "JER".toList),
  ("lamentations".toList, "LAM".toList),
  ("lam".toList, "LAM".toList),
  ("ezekiel".toList, "EZK".toList),
  ("ezek".toList, "EZK".toList),
  ("daniel".toList, "DAN".toList),
  ("dan".toList, "DAN".toList),
  ("hosea".toList, "HOS".toList),
  ("hos".toList, "HOS".toList),
  ("joel".toList, "JOL".toList),
  ("amos".toList, "AMO".toList),
  ("obadiah".toList, "OBA".toList),
  ("obad".toList, "OBA".toList),
  ("jonah".toList, "JON".toList),
  ("micah".toList, "MIC".toList),
  ("mic".toList, "MIC".toList),
  ("nahum".toList, "NAM".toList),
  ("nah".toList, "NAM".toList),
  ("habakkuk".toList, "HAB".toList),
  ("hab".toList, "HAB".toList),
  ("zephaniah".toList, "ZEP".toList),
  ("zeph".toList, "ZEP".toList),
  ("haggai".toList, "HAG".toList),
  ("hag".toList, "HAG".toList),
  ("zechariah".toList, "ZEC".toList),
  ("zech".toList, "ZEC".toList),
  ("malachi".toList, "MAL".toList),
  ("mal".toList, "MAL".toList),
  ("matthew".toList, "MAT".toList),
  ("matt".toList, "MAT".toList),
  ("mark".toList, "MRK".toList),
  ("luke".toList, "LUK".toList),
  ("john".toList, "JHN".toList),
  ("acts".toList, "ACT".toList),
  ("romans".toList, "ROM".toList),
  ("rom".toList, "ROM".toList),
  ("1 corinthians".toList, "1CO".toList),
  ("1cor".toList, "1CO".toList),
  ("2 corinthians".toList, "2CO".toList),
  ("2cor".toList, "2CO".toList),
  ("galatians".toList, "GAL".toList),
  ("gal".toList, "GAL".toList),
  ("ephesians".toList, "EPH".toList),
  ("eph".toList, "EPH".toList),
  ("philippians".toList, "PHP".toList),
  ("phil".toList, "PHP".toList),
  ("colossians".toList, "COL".toList),
  ("col".toList, "COL".toList),
  ("1 thessalonians".toList, "1TH".toList),
  ("1thess".toList, "1TH".toList),
  ("2 thessalonians".toList, "2TH".toList),
  ("2thess".toList, "2TH".toList),
  ("1 timothy".toList, "1TI".toList),
  ("1tim".toList, "1TI".toList),
  ("2 timothy".toList, "2TI".toList),
  ("2tim".toList, "2TI".toList),
  ("titus".toList, "TIT".toList),
  ("philemon".toList, "PHM".toList),
  ("phlm".toList, "PHM".toList),
  ("hebrews".toList, "HEB".toList),
  ("heb".toList, "HEB".toList),
  ("james".toList, "JAS".toList),
  ("jas".toList, "JAS".toList),
  ("1 peter".toList, "1PE".toList),
  ("1pet".toList, "1PE".toList),
  ("2 peter".toList, "2PE".toList),
  ("2pet".toList, "2PE".toList),
  ("1 john".toList, "1JN".toList),
  ("1jn".toList, "1JN".toList),
  ("2 john".toList, "2JN".toList),
  ("2jn".toList, "2JN".toList),
  ("3 john".toList, "3JN".toList),
  ("3jn".toList, "3JN".toList),
  ("jude".toList, "JUD".toList),
  ("revelation".toList, "REV".toList),
  ("rev".toList, "REV".toList)]

/-- The `book_map` table of `BibleAPIClient._get_book_abbreviation`
(src/verse_inserter/api/bible_api_client.py). -/
def clientAbbrevTable : List (Str × Str) := [
  ("genesis".toList, "GEN".toList),
  ("gen".toList, "GEN".toList),
  ("exodus".toList, "EXO".toList),
  ("exo".toList, "EXO".toList),
  ("exod".toList, "EXO".toList),
  ("leviticus".toList, "LEV".toList),
  ("lev".toList, "LEV".toList),
  ("numbers".toList, "NUM".toList),
  ("num".toList, "NUM".toList),
  ("deuteronomy".toList, "DEU".toList),
  ("deu".toList, "DEU".toList),
  ("deut".toList, "DEU".toList),
  ("joshua".toList, "JOS".toList),
  ("josh".toList, "JOS".toList),
  ("judges".toList, "JDG".toList),
  ("judg".toList, "JDG".toList),
  ("ruth".toList, "RUT".toList),
  ("1 samuel".toList, "1SA".toList),
  ("1sam".toList, "1SA".toList),
  ("1 sam".toList, "1SA".toList),
  ("2 samuel".toList, "2SA".toList),
  ("2sam".toList, "2SA".toList),
  ("2 sam".toList, "2SA".toList),
  ("1 kings".toList, "1KI".toList),
  ("1ki".toList, "1KI".toList),
  ("1 kin".toList, "1KI".toList),
  ("2 kings".toList, "2KI".toList),
  ("2ki".toList, "2KI".toList),
  ("2 kin".toList, "2KI".toList),
  ("1 chronicles".toList, "1CH".toList),
  ("1chr".toList, "1CH".toList),
  ("1 chr".toList, "1CH".toList),
  ("2 chronicles".toList, "2CH".toList),
  ("2chr".toList, "2CH".toList),
  ("2 chr".toList, "2CH".toList),
  ("ezra".toList, "EZR".toList),
  ("nehemiah".toList, "NEH".toList),
  ("neh".toList, "NEH".toList),
  ("esther".toList, "EST".toList),
  ("job".toList, "JOB".toList),
  ("psalm".toList, "PSA".toList),
  ("psalms".toList, "PSA".toList),
  ("ps".toList, "PSA".toList),
  ("psa".toList, "PSA".toList),
  ("proverbs".toList, "PRO".toList),
  ("prov".toList, "PRO".toList),
  ("ecclesiastes".toList, "ECC".toList),
  ("eccl".toList, "ECC".toList),
  ("song of solomon".toList, "SNG".toList),
  ("song".toList, "SNG".toList),
  ("sos".toList, "SNG".toList),
  ("isaiah".toList, "ISA".toList),
  ("isa".toList, "ISA".toList),
  ("jeremiah".toList, "JER".toList),
  ("jer".toList, "JER".toList),
  ("lamentations".toList, "LAM".toList),
  ("lam".toList, "LAM".toList),
  ("ezekiel".toList, "EZK".toList),
  ("ezek".toList, "EZK".toList),
  ("eze".toList, "EZK".toList),
  ("daniel".toList, "DAN".toList),
  ("dan".toList, "DAN".toList),
  ("hosea".toList, "HOS".toList),
  ("hos".toList, "HOS".toList),
  ("joel".toList, "JOL".toList),
  ("amos".toList, "AMO".toList),
  ("obadiah".toList, "OBA".toList),
  ("obad".toList, "OBA".toList),
  ("jonah".toList, "JON".toList),
  ("micah".toList, "MIC".toList),
  ("mic".toList, "MIC".toList),
  ("nahum".toList, "NAM".toList),
  ("nah".toList, "NAM".toList),
  ("habakkuk".toList, "HAB".toList),
  ("hab".toList, "HAB".toList),
  ("zephaniah".toList, "ZEP".toList),
  ("zeph".toList, "ZEP".toList),
  ("haggai".toList, "HAG".toList),
  ("hag".toList, "HAG".toList),
  ("zechariah".toList, "ZEC".toList),
  ("zech".toList, "ZEC".toList),
  ("malachi".toList, "MAL".toList),
  ("mal".toList, "MAL".toList),
  ("matthew".toList, "MAT".toList),
  ("matt".toList, "MAT".toList),
  ("mt".toList, "MAT".toList),
  ("mark".toList, "MRK".toList),
  ("mk".toList, "MRK".toList),
  ("luke".toList, "LUK".toList),
  ("lk".toList, "LUK".toList),
  ("john".toList, "JHN".toList),
  ("jn".toList, "JHN".toList),
  ("acts".toList, "ACT".toList),
  ("romans".toList, "ROM".toList),
  ("rom".toList, "ROM".toList),
  ("1 corinthians".toList, "1CO".toList),
  ("1cor".toList, "1CO".toList),
  ("1 cor".toList, "1CO".toList),
  ("2 corinthians".toList, "2CO".toList),
  ("2cor".toList, "2CO".toList),
  ("2 cor".toList, "2CO".toList),
  ("galatians".toList, "GAL".toList),
  ("gal".toList, "GAL".toList),
  ("ephesians".toList, "EPH".toList),
  ("eph".toList, "EPH".toList),
  ("philippians".toList, "PHP".toList),
  ("phil".toList, "PHP".toList),
  ("colossians".toList, "COL".toList),
  ("col".toList, "COL".toList),
  ("1 thessalonians".toList, "1TH".toList),
  ("1thess".toList, "1TH".toList),
  ("1 thess".toList, "1TH".toList),
  ("2 thessalonians".toList, "2TH".toList),
  ("2thess".toList, "2TH".toList),
  ("2 thess".toList, "2TH".toList),
  ("1 timothy".toList, "1TI".toList),
  ("1tim".toList, "1TI".toList),
  ("1 tim".toList, "1TI".toList),
  ("2 timothy".toList, "2TI".toList),
  ("2tim".toList, "2TI".toList),
  ("2 tim".toList, "2TI".toList),
  ("titus".toList, "TIT".toList),
  ("tit".toList, "TIT".toList),
  ("philemon".toList, "PHM".toList),
  ("phlm".toList, "PHM".toList),
  ("hebrews".toList, "HEB".toList),
  ("heb".toList, "HEB".toList),
  ("james".toList, "JAS".toList),
  ("jas".toList, "JAS".toList),
  ("jam".toList, "JAS".toList),
  ("1 peter".toList, "1PE".toList),
  ("1pet".toList, "1PE".toList),
  ("1 pet".toList, "1PE".toList),
  ("2 peter".toList, "2PE".toList),
  ("2pet".toList, "2PE".toList),
  ("2 pet".toList, "2PE".toList),
  ("1 john".toList, "1JN".toList),
  ("1jn".toList, "1JN".toList),
  ("2 john".toList, "2JN".toList),
  ("2jn".toList, "2JN".toList),
  ("3 john".toList, "3JN".toList),
  ("3jn".toList, "3JN".toList),
  ("jude".toList, "JUD".toList),
  ("revelation".toList, "REV".toList),
  ("rev".toList, "REV".toList)]

/-- The key/value pairs present only in the API client table. -/
def clientOnlyAbbrevs : List (Str × Str) := [
  ("exod".toList, "EXO".toList),
  ("deu".toList, "DEU".toList),
  ("1 sam".toList, "1SA".toList),
  ("2 sam".toList, "2SA".toList),
  ("1 kin".toList, "1KI".toList),
  ("2 kin".toList, "2KI".toList),
  ("1 chr".toList, "1CH".toList),
  ("2 chr".toList, "2CH".toList),
  ("ps".toList, "PSA".toList),
  ("sos".toList, "SNG".toList),
  ("eze".toList, "EZK".toList),
  ("mt".toList, "MAT".toList),
  ("mk".toList, "MRK".toList),
  ("lk".toList, "LUK".toList),
  ("jn".toList, "JHN".toList),
  ("1 cor".toList, "1CO".toList),
  ("2 cor".toList, "2CO".toList),
  ("1 thess".toList, "1TH".toList),
  ("2 thess".toList, "2TH".toList),
  ("1 tim".toList, "1TI".toList),
  ("2 tim".toList, "2TI".toList),
  ("tit".toList, "TIT".toList),
  ("jam".toList, "JAS".toList),
  ("1 pet".toList, "1PE".toList),
  ("2 pet".toList, "2PE".toList)]

/-- The shared normalization `book.lower().strip().replace(".", "")` used by
both abbreviation lookups. -/
def normBook (s : Str) : Str :=
  (stripChars (s.map lowerCh)).filter (fun c => decide (c ≠ '.'))

/-- `VerseReference._get_book_abbreviation`: table lookup, falling back to
`book[:3].upper()`. -/
def modelBookAbbrev (book : Str) : Str :=
  match List.lookup (normBook book) modelAbbrevTable with
  | some v => v
  | none => (book.take 3).map upperCh

/-- `BibleAPIClient._get_book_abbreviation`: table lookup, falling back to
`book_name.upper()[:3]`. -/
def clientBookAbbrev (book : Str) : Str :=
  match List.lookup (normBook book) clientAbbrevTable with
  | some v => v
  | none => (book.map upperCh).take 3

/-- The invalid filename characters of `get_safe_filename`
(src/utils/file_handler.py): `< > : " / \ | ? *`. -/
def invalidFilenameChars : Str := "<>:\"/\\|?*".toList

/-- One `safe_name.replace(char, '_')` pass (single-character pattern). -/
def replaceCharUnderscore (s : Str) (c : Char) : Str :=
  s.map (fun x => if x = c then '_' else x)

/-- `get_safe_filename`: successively replace each invalid character by `_`. -/
def get_safe_filename (filename : Str) : Str :=
  invalidFilenameChars.foldl replaceCharUnderscore filename

/-! ## Theorems -/

/-- C3: For every verse reference and every cache backend, `CacheManager.get`
never raises (the key build is pure and the read sits inside `try`/`except`);
when the read succeeds it returns exactly what the cache holds for the key —
in particular the cached `Verse` when one is present — and when the read
raises, the error is swallowed and reported as a miss (`none`). -/
theorem cacheManager_get_spec :
    (∀ (backend : Str → Except PyErr (Option Verse)) (ref : VerseReference),
      ∃ v : Option Verse, CacheManager.get backend ref = .ok v)
    ∧ (∀ (backend : Str → Except PyErr (Option Verse)) (ref : VerseReference)
        (w : Option Verse), backend (make_key ref) = .ok w →
      CacheManager.get backend ref = .ok w)
    ∧ (∀ (backend : Str → Except PyErr (Option Verse)) (ref : VerseReference)
        (e : PyErr), backend (make_key ref) = .error e →
      CacheManager.get backend ref = .ok none) := by
  refine ⟨?_, ?_, ?_⟩
  · intro backend ref
    unfold CacheManager.get
    cases h : backend (make_key ref) with
    | ok v => exact ⟨v, by simp [h]⟩
    | error e => exact ⟨none, by simp [h]⟩
  · intro backend ref w h
    unfold CacheManager.get
    simp [h]
  · intro backend ref e h
    unfold CacheManager.get
    simp [h]

/-- The cached reference and verse used by the C3 witness. -/
def cacheDemoRef : VerseReference := ⟨"Psalm".toList, 23, 1, none, .KJV⟩

/-- A stored verse for `cacheDemoRef`. -/
def cacheDemoVerse : Verse :=
  ⟨cacheDemoRef, "The Lord is my shepherd".toList, .KJV⟩

/-- Witness for C3: a backend holding the verse yields the hit, and a backend
whose read raises yields a miss, both without raising. -/
theorem cacheManager_get_spec_witness :
    CacheManager.get (fun _ => .ok (some cacheDemoVerse)) cacheDemoRef
      = .ok (some cacheDemoVerse)
    ∧ CacheManager.get (fun _ => .error .cacheReadError) cacheDemoRef = .ok none :=
  ⟨cacheManager_get_spec.2.1 (fun _ => .ok (some cacheDemoVerse)) cacheDemoRef
      (some cacheDemoVerse) rfl,
   cacheManager_get_spec.2.2 (fun _ => .error .cacheReadError) cacheDemoRef
      .cacheReadError rfl⟩

/-- C6: Constructing a `VerseReference` whose end verse does not exceed its
start verse always fails pydantic validation, for every book, chapter and
translation; in particular it never succeeds with swapped or clamped verses. -/
theorem mkVerseReference_rejects_bad_range
    (book : Str) (chapter s e : Nat) (t : TranslationType) (h : e ≤ s) :
    ∃ msg, mkVerseReference book chapter s (some e) t = .error msg := by
  unfold mkVerseReference
  simp only
  split_ifs with h1 h2 h3 h4 h5
  all_goals first
    | exact ⟨_, rfl⟩
    | omega

/-- Witness for C6 at the spec's example (start 16, end 10). -/
theorem mkVerseReference_rejects_bad_range_witness :
    10 ≤ 16 ∧
      ∃ msg, mkVerseReference "John".toList 3 16 (some 10) .NLT = .error msg :=
  ⟨by decide, mkVerseReference_rejects_bad_range "John".toList 3 16 10 .NLT (by decide)⟩

/-- C8: The three success-rate properties return exactly 0 when their
denominator is 0, and none of the three can ever raise a division error on
any input. -/
theorem success_rates_zero_denominator :
    (∀ su rep fail errs,
      ProcessingResult.success_rate ⟨su, 0, rep, fail, errs⟩ = .ok 0)
    ∧ (∀ s f tp tv frs,
      BatchProcessingResult.success_rate ⟨0, s, f, tp, tv, frs⟩ = .ok 0)
    ∧ (∀ u i d bs,
      ParsingStatistics.success_rate ⟨0, u, i, d, bs⟩ = .ok 0)
    ∧ (∀ r : ProcessingResult, ∃ q, r.success_rate = .ok q)
    ∧ (∀ r : BatchProcessingResult, ∃ q, r.success_rate = .ok q)
    ∧ (∀ s : ParsingStatistics, ∃ q, s.success_rate = .ok q) := by
  refine ⟨?_, ?_, ?_, ?_, ?_, ?_⟩
  · intro su rep fail errs
    simp [ProcessingResult.success_rate]
  · intro s f tp tv frs
    simp [BatchProcessingResult.success_rate]
  · intro u i d bs
    simp [ParsingStatistics.success_rate]
  · intro r
    by_cases h : r.placeholders_found = 0
    · exact ⟨0, by simp [ProcessingResult.success_rate, h]⟩
    · have hq : (r.placeholders_found : ℚ) ≠ 0 := Nat.cast_ne_zero.mpr h
      simp only [ProcessingResult.success_rate, h, if_false, pyDiv, hq, if_neg,
        Except.map, ite_false]
      exact ⟨_, rfl⟩
  · intro r
    by_cases h : r.total_files = 0
    · exact ⟨0, by simp [BatchProcessingResult.success_rate, h]⟩
    · have hq : (r.total_files : ℚ) ≠ 0 := Nat.cast_ne_zero.mpr h
      simp only [BatchProcessingResult.success_rate, h, if_false, pyDiv, hq, if_neg,
        Except.map, ite_false]
      exact ⟨_, rfl⟩
  · intro s
    by_cases h : s.total_found = 0
    · exact ⟨0, by simp [ParsingStatistics.success_rate, h]⟩
    · have hq : (s.total_found : ℚ) ≠ 0 := Nat.cast_ne_zero.mpr h
      simp only [ParsingStatistics.success_rate, h, if_false, pyDiv, hq, if_neg,
        Except.map, ite_false]
      exact ⟨_, rfl⟩

/-- A reference whose translation is present in the offline database. -/
def offlineDemoRef : VerseReference := ⟨"John".toList, 3, 16, none, .NLT⟩

/-- The stored verse for `offlineDemoRef`. -/
def offlineDemoVerse : Verse :=
  ⟨offlineDemoRef, "For God so loved the world".toList, .NLT⟩

/-- An offline database holding exactly `offlineDemoRef`. -/
def offlineDemoDb : OfflineDb :=
  ⟨fun _ => true,
   fun r => if r = offlineDemoRef then .ok (some offlineDemoVerse) else .ok none,
   fun _ => .ok none⟩

/-- C2: On an offline hit with prefer-offline enabled, `fetch_verse` does
increment the offline-hit counter, but it then raises `AttributeError`
(the debug f-string reads the nonexistent `reference.canonical`) instead of
returning the verse as the claim and the surrounding documentation state. -/
theorem fetch_verse_offline_hit_raises :
    fetch_verse {} offlineDemoDb none (fun _ => .error .apiError) offlineDemoRef
      = ({ prefer_offline := true, offline_hits := 1, cache_hits := 0, api_calls := 0 },
         .error .attributeError) := by
  rfl

/-- A readable batch input document containing one `{{John 3:16}}` placeholder. -/
def batchDemoDoc : Document :=
  ⟨["x \x7b\x7bJohn 3:16\x7d\x7d".toList], []⟩

/-- C1: The batch of two readable files that both reference John 3:16 never
reaches the fetch phase: step 2 of `process_batch` calls `.keys()` on the
placeholder *list* stored by `_collect_all_placeholders`, raising
`AttributeError`, so nothing is fetched and no output document is produced. -/
theorem process_batch_crashes_on_readable_files :
    process_batch {} none (fun _ => .error .apiError) [some batchDemoDoc, some batchDemoDoc]
      = .error .attributeError := by
  rfl

/-- The per-character effect of the `get_safe_filename` replacement chain. -/
def sanitizeChain (cs : Str) (x : Char) : Char :=
  cs.foldl (fun y c => if y = c then '_' else y) x

/-- A fold of character replacements is a pointwise map. -/
theorem foldl_replace_eq_map (cs : Str) (s : Str) :
    cs.foldl replaceCharUnderscore s = s.map (sanitizeChain cs) := by
  induction cs generalizing s with
  | nil =>
    simp only [List.foldl_nil]
    have : sanitizeChain [] = id := by funext x; rfl
    rw [this, List.map_id]
  | cons c cs ih =>
    simp only [List.foldl_cons]
    rw [replaceCharUnderscore, ih, List.map_map]
    rfl

/-- The replacement chain yields `_` or leaves the character unchanged. -/
theorem sanitizeChain_cases (cs : Str) (x : Char) :
    sanitizeChain cs x = '_' ∨ sanitizeChain cs x = x := by
  induction cs generalizing x with
  | nil => right; rfl
  | cons c cs ih =>
    simp only [sanitizeChain, List.foldl_cons]
    by_cases h : x = c
    · simp only [h, if_pos rfl]
      rcases ih '_' with h1 | h1
      · left; exact h1
      · left; exact h1
    · simp only [if_neg h]
      exact ih x

/-- C10: `get_safe_filename` is idempotent: its output never contains an
invalid character (each is already replaced by `_`, and `_` is not itself
invalid), so a second pass changes nothing. -/
theorem get_safe_filename_idempotent (s : Str) :
    get_safe_filename (get_safe_filename s) = get_safe_filename s := by
  have e1 : ∀ t : Str, get_safe_filename t = t.map (sanitizeChain invalidFilenameChars) :=
    fun t => foldl_replace_eq_map invalidFilenameChars t
  rw [e1, e1, List.map_map]
  refine List.map_congr_left ?_
  intro a _
  simp only [Function.comp_apply]
  rcases sanitizeChain_cases invalidFilenameChars a with h | h
  · rw [h]
    decide
  · rw [h, h]

/-- C9 counterexample: on the book string "Ps" the data model's lookup misses
its table and falls back to the first three characters upper-cased ("PS"),
while the API client's table contains the "ps" key and returns "PSA", so the
two components produce different verse identifiers. -/
theorem bookAbbrev_mismatch_on_Ps :
    modelBookAbbrev "Ps".toList = "PS".toList
    ∧ clientBookAbbrev "Ps".toList = "PSA".toList
    ∧ modelBookAbbrev "Ps".toList ≠ clientBookAbbrev "Ps".toList := by
  decide

/-- A successful assoc-list lookup pins down a member pair. -/
theorem lookup_eq_some_mem {l : List (Str × Str)} {k v : Str}
    (h : List.lookup k l = some v) : (k, v) ∈ l := by
  induction l with
  | nil => simp [List.lookup] at h
  | cons p rest ih =>
    cases hk : k == p.1 with
    | true =>
      have hkk : k = p.1 := eq_of_beq hk
      simp only [List.lookup, hk] at h
      cases h
      simp [hkk]
    | false =>
      simp only [List.lookup, hk] at h
      exact List.mem_cons_of_mem _ (ih h)

set_option maxRecDepth 40000 in
/-- Every entry of the model's abbreviation table appears, with the same
value, in the API client's table. -/
theorem modelTable_sub_clientTable :
    ∀ p ∈ modelAbbrevTable, List.lookup p.1 clientAbbrevTable = some p.2 := by
  decide

set_option maxRecDepth 40000 in
/-- Every key of the API client's table is a model-table key or one of the
client-only keys. -/
theorem clientTable_keys_covered :
    ∀ p ∈ clientAbbrevTable,
      (List.lookup p.1 modelAbbrevTable).isSome = true
      ∨ (List.lookup p.1 clientOnlyAbbrevs).isSome = true := by
  decide

/-- C9 amended: the two book-abbreviation lookups agree on every book name
whose normalized form is not one of the 25 abbreviation keys that exist only
in the API client's table (on those, the model falls back to the first three
characters upper-cased while the client returns the standard code). -/
theorem bookAbbrev_agree_off_client_extras (book : Str)
    (h : List.lookup (normBook book) clientOnlyAbbrevs = none) :
    modelBookAbbrev book = clientBookAbbrev book := by
  unfold modelBookAbbrev clientBookAbbrev
  cases hm : List.lookup (normBook book) modelAbbrevTable with
  | some v =>
    have hc : List.lookup (normBook book) clientAbbrevTable = some v :=
      modelTable_sub_clientTable _ (lookup_eq_some_mem hm)
    simp [hm, hc]
  | none =>
    cases hc : List.lookup (normBook book) clientAbbrevTable with
    | some v =>
      exfalso
      rcases clientTable_keys_covered _ (lookup_eq_some_mem hc) with h1 | h1
      · rw [hm] at h1
        simp at h1
      · rw [h] at h1
        simp at h1
    | none =>
      simp only [hm, hc]
      exact List.map_take upperCh book 3

/-- Witness for the amended C9 at the book name "John". -/
theorem bookAbbrev_agree_off_client_extras_witness :
    List.lookup (normBook "John".toList) clientOnlyAbbrevs = none
    ∧ modelBookAbbrev "John".toList = clientBookAbbrev "John".toList :=
  ⟨by decide, bookAbbrev_agree_off_client_extras "John".toList (by decide)⟩

/-- The valid placeholders built from a match list (invalid matches are
dropped by `createPlaceholderFromMatch`). -/
def vpOf (P : PlaceholderParser) (pi po : Nat) (ms : List (PMatch × Str × Nat)) :
    List Placeholder :=
  ms.filterMap (fun t => createPlaceholderFromMatch P t.1 t.2.1 pi po t.2.2)

/-- First-occurrence-wins deduplication by unique key, starting from a set of
already-seen keys. -/
def keyDedup (seen : List Str) : List Placeholder → List Placeholder
  | [] => []
  | p :: rest =>
    if p.unique_key ∈ seen then keyDedup seen rest
    else p :: keyDedup (seen ++ [p.unique_key]) rest

/-- How many keys of the list repeat a key already seen (counting each later
occurrence). -/
def dupCountKeys (seen : List Str) : List Str → Nat
  | [] => 0
  | k :: ks =>
    if k ∈ seen then 1 + dupCountKeys seen ks
    else dupCountKeys (seen ++ [k]) ks

/-- Behavior of the primary-pattern fold of `parse_text` over any match list
and starting state: placeholders and seen keys grow by the key-deduplicated
valid placeholders, and `duplicate_count` grows by exactly the number of
repeated-key valid primary placeholders. -/
theorem primaryStep_fold_spec (P : PlaceholderParser) (pi po : Nat)
    (ms : List (PMatch × Str × Nat)) :
    ∀ st : ParseState,
      (ms.foldl (primaryStep P pi po) st).placeholders
          = st.placeholders ++ keyDedup st.seen (vpOf P pi po ms)
      ∧ (ms.foldl (primaryStep P pi po) st).seen
          = st.seen ++ (keyDedup st.seen (vpOf P pi po ms)).map Placeholder.unique_key
      ∧ (ms.foldl (primaryStep P pi po) st).stats.duplicate_count
          = st.stats.duplicate_count
            + dupCountKeys st.seen ((vpOf P pi po ms).map Placeholder.unique_key) := by
  induction ms with
  | nil => intro st; simp [vpOf, keyDedup, dupCountKeys]
  | cons t ms ih =>
    rintro ⟨pl, seen, stats⟩
    simp only [List.foldl_cons]
    cases hc : createPlaceholderFromMatch P t.1 t.2.1 pi po t.2.2 with
    | none =>
      have hvp : vpOf P pi po (t :: ms) = vpOf P pi po ms := by
        simp [vpOf, List.filterMap_cons, hc]
      have hstep : primaryStep P pi po ⟨pl, seen, stats⟩ t
          = ⟨pl, seen, { stats with invalid_count := stats.invalid_count + 1 }⟩ := by
        simp [primaryStep, hc]
      rw [hstep, hvp]
      simpa using ih _
    | some p =>
      have hvp : vpOf P pi po (t :: ms) = p :: vpOf P pi po ms := by
        simp [vpOf, List.filterMap_cons, hc]
      by_cases hseen : p.unique_key ∈ seen
      · have hstep : primaryStep P pi po ⟨pl, seen, stats⟩ t
            = ⟨pl, seen, { stats with duplicate_count := stats.duplicate_count + 1 }⟩ := by
          simp [primaryStep, hc, hseen]
        rw [hstep, hvp]
        obtain ⟨h1, h2, h3⟩ :=
          ih ⟨pl, seen, { stats with duplicate_count := stats.duplicate_count + 1 }⟩
        simp only [keyDedup, List.map_cons, dupCountKeys, hseen, if_pos] at h1 h2 h3 ⊢
        refine ⟨h1, h2, ?_⟩
        simp only [h3]
        omega
      · have hstep : primaryStep P pi po ⟨pl, seen, stats⟩ t
            = ⟨pl ++ [p], seen ++ [p.unique_key],
               { stats with books_referenced := insertBook stats.books_referenced p.reference.book }⟩ := by
          simp [primaryStep, hc, hseen]
        rw [hstep, hvp]
        obtain ⟨h1, h2, h3⟩ :=
          ih ⟨pl ++ [p], seen ++ [p.unique_key],
              { stats with books_referenced := insertBook stats.books_referenced p.reference.book }⟩
        simp only [keyDedup, List.map_cons, dupCountKeys, hseen, if_neg, not_false_iff] at h1 h2 h3 ⊢
        refine ⟨?_, ?_, ?_⟩
        · rw [h1]; simp
        · rw [h2]; simp
        · exact h3

/-- Behavior of the alternative-pattern fold of `parse_text`: placeholders and
seen keys grow exactly as in the primary fold, but `duplicate_count` never
changes — a repeated key met through an alternative pattern is discarded
silently. -/
theorem altStep_fold_spec (P : PlaceholderParser) (pi po : Nat)
    (ms : List (PMatch × Str × Nat)) :
    ∀ st : ParseState,
      (ms.foldl (altStep P pi po) st).placeholders
          = st.placeholders ++ keyDedup st.seen (vpOf P pi po ms)
      ∧ (ms.foldl (altStep P pi po) st).seen
          = st.seen ++ (keyDedup st.seen (vpOf P pi po ms)).map Placeholder.unique_key
      ∧ (ms.foldl (altStep P pi po) st).stats.duplicate_count
          = st.stats.duplicate_count := by
  induction ms with
  | nil => intro st; simp [vpOf, keyDedup]
  | cons t ms ih =>
    rintro ⟨pl, seen, stats⟩
    simp only [List.foldl_cons]
    cases hc : createPlaceholderFromMatch P t.1 t.2.1 pi po t.2.2 with
    | none =>
      have hvp : vpOf P pi po (t :: ms) = vpOf P pi po ms := by
        simp [vpOf, List.filterMap_cons, hc]
      have hstep : altStep P pi po ⟨pl, seen, stats⟩ t
          = ⟨pl, seen, { stats with invalid_count := stats.invalid_count + 1 }⟩ := by
        simp [altStep, hc]
      rw [hstep, hvp]
      simpa using ih _
    | some p =>
      have hvp : vpOf P pi po (t :: ms) = p :: vpOf P pi po ms := by
        simp [vpOf, List.filterMap_cons, hc]
      by_cases hseen : p.unique_key ∈ seen
      · have hstep : altStep P pi po ⟨pl, seen, stats⟩ t = ⟨pl, seen, stats⟩ := by
          simp [altStep, hc, hseen]
        rw [hstep, hvp]
        obtain ⟨h1, h2, h3⟩ := ih ⟨pl, seen, stats⟩
        simp only [keyDedup, List.map_cons, hseen, if_pos] at h1 h2 h3 ⊢
        exact ⟨h1, h2, h3⟩
      · have hstep : altStep P pi po ⟨pl, seen, stats⟩ t
            = ⟨pl ++ [p], seen ++ [p.unique_key],
               { stats with books_referenced := insertBook stats.books_referenced p.reference.book }⟩ := by
          simp [altStep, hc, hseen]
        rw [hstep, hvp]
        obtain ⟨h1, h2, h3⟩ :=
          ih ⟨pl ++ [p], seen ++ [p.unique_key],
              { stats with books_referenced := insertBook stats.books_referenced p.reference.book }⟩
        simp only [keyDedup, List.map_cons, hseen, if_neg, not_false_iff] at h1 h2 h3 ⊢
        refine ⟨?_, ?_, ?_⟩
        · rw [h1]; simp
        · rw [h2]; simp
        · exact h3

/-- Deduplication distributes over append: the second block is deduplicated
against the keys already taken from the first. -/
theorem keyDedup_append (a : List Placeholder) :
    ∀ (seen : List Str) (b : List Placeholder),
      keyDedup seen (a ++ b)
        = keyDedup seen a
          ++ keyDedup (seen ++ (keyDedup seen a).map Placeholder.unique_key) b := by
  induction a with
  | nil => intro seen b; simp [keyDedup]
  | cons p a ih =>
    intro seen b
    by_cases hseen : p.unique_key ∈ seen
    · rw [List.cons_append,
        show keyDedup seen (p :: (a ++ b)) = keyDedup seen (a ++ b) from by
          simp [keyDedup, hseen],
        show keyDedup seen (p :: a) = keyDedup seen a from by simp [keyDedup, hseen]]
      exact ih seen b
    · rw [List.cons_append,
        show keyDedup seen (p :: (a ++ b))
            = p :: keyDedup (seen ++ [p.unique_key]) (a ++ b) from by
          simp [keyDedup, hseen],
        show keyDedup seen (p :: a) = p :: keyDedup (seen ++ [p.unique_key]) a from by
          simp [keyDedup, hseen],
        ih (seen ++ [p.unique_key]) b]
      simp

/-- The text of the C7 counterexample:
one primary placeholder and one parenthesis placeholder with the same
reference and translation. -/
def altDupText : Str := "\x7b\x7bJohn 3:16\x7d\x7d (John 3:16)".toList

/-- C7 counterexample: in `{{John 3:16}} (John 3:16)` the parenthesis
occurrence repeats the key of the primary occurrence, so it is discarded
(only one placeholder is returned from two well-formed occurrences), yet
`duplicate_count` stays 0 — the alternative-pattern loop does not count the
duplicates it discards, contrary to the claim. -/
theorem parse_text_alt_duplicate_uncounted :
    (parse_text {} {} altDupText).1.length = 1
    ∧ (parse_text {} {} altDupText).2.total_found = 1
    ∧ (parse_text {} {} altDupText).2.duplicate_count = 0
    ∧ (matchesOf matchParenAt altDupText).length = 1 := by
  decide

/-- C7 amended: within one `parse_text` call, any later occurrence repeating
an already-seen unique key is discarded — the returned list is exactly the
first-occurrence-wins deduplication of the valid primary then alternative
matches (sorted by position) — but only repeated keys met through the
*primary* pattern are added to `duplicate_count`; repeated keys met through
the parenthesis/bracket patterns are discarded without being counted. -/
theorem parse_text_dedup_spec (P : PlaceholderParser) (s0 : ParsingStatistics)
    (text : Str) (pi po : Nat) :
    (parse_text P s0 text pi po).1
      = sortByPosition (keyDedup []
          (vpOf P pi po (matchesOf matchPrimaryAt text)
            ++ (if P.enable_alternative_formats then
                  vpOf P pi po (matchesOf matchParenAt text)
                  ++ vpOf P pi po (matchesOf matchBracketAt text)
                else [])))
    ∧ (parse_text P s0 text pi po).2.duplicate_count
      = s0.duplicate_count
        + dupCountKeys []
            ((vpOf P pi po (matchesOf matchPrimaryAt text)).map Placeholder.unique_key) := by
  unfold parse_text
  obtain ⟨hp1, hp2, hp3⟩ :=
    primaryStep_fold_spec P pi po (matchesOf matchPrimaryAt text) ⟨[], [], s0⟩
  by_cases halt : P.enable_alternative_formats
  · simp only [halt, if_true]
    set st1 := (matchesOf matchPrimaryAt text).foldl (primaryStep P pi po) ⟨[], [], s0⟩ with hst1
    obtain ⟨ha1, ha2, ha3⟩ :=
      altStep_fold_spec P pi po (matchesOf matchParenAt text) st1
    set st2 := (matchesOf matchParenAt text).foldl (altStep P pi po) st1 with hst2
    obtain ⟨hb1, hb2, hb3⟩ :=
      altStep_fold_spec P pi po (matchesOf matchBracketAt text) st2
    simp only [List.nil_append] at hp1 hp2
    constructor
    · rw [hb1, ha1, hp1, ha2, hp2]
      rw [keyDedup_append, keyDedup_append]
      simp [List.append_assoc]
    · rw [hb3, ha3, hp3]
  · simp only [Bool.not_eq_true] at halt
    simp only [halt, Bool.false_eq_true, if_false]
    simp only [List.nil_append] at hp1 hp2
    constructor
    · rw [hp1]
      simp
    · exact hp3

/-- A list is a Boolean prefix of itself followed by anything. -/
theorem isPrefixOf_append_self (x z : Str) : x.isPrefixOf (x ++ z) = true := by
  induction x with
  | nil => simp [List.isPrefixOf]
  | cons c cs ih => simp [List.isPrefixOf, ih]

/-- `containsSub` finds a block at the front. -/
theorem containsSub_append_left (x z : Str) : containsSub (x ++ z) x = true := by
  unfold containsSub
  rw [isPrefixOf_append_self]
  simp

/-- `containsSub` is preserved by prepending a character. -/
theorem containsSub_cons_of (c : Char) (R sub : Str) (h : containsSub R sub = true) :
    containsSub (c :: R) sub = true := by
  by_cases hp : sub.isPrefixOf (c :: R) <;> simp [containsSub, hp, h]

/-- An empty string contains no nonempty substring. -/
theorem containsSub_nil (old : Str) (hold : old ≠ []) : containsSub [] old = false := by
  cases old with
  | nil => exact absurd rfl hold
  | cons c cs => simp [containsSub, List.isPrefixOf]

/-- When the pattern occurs in the text, its replacement occurs in the result
of `listReplaceCore` (for any sufficient fuel). -/
theorem containsSub_listReplaceCore (old new : Str) (hold : old ≠ []) :
    ∀ (fuel : Nat) (s : Str), s.length ≤ fuel → containsSub s old = true →
      containsSub (listReplaceCore old new fuel s) new = true := by
  intro fuel
  induction fuel with
  | zero =>
    intro s hs hc
    have hnil : s = [] := List.length_eq_zero.mp (Nat.le_zero.mp hs)
    rw [hnil, containsSub_nil old hold] at hc
    exact absurd hc (by simp)
  | succ fuel ih =>
    intro s hs hc
    have hne : old.isEmpty = false := by
      cases old with
      | nil => exact absurd rfl hold
      | cons c cs => rfl
    cases s with
    | nil =>
      rw [containsSub_nil old hold] at hc
      exact absurd hc (by simp)
    | cons c rest =>
      by_cases hp : old.isPrefixOf (c :: rest)
      · simp only [listReplaceCore, hne, Bool.false_eq_true, if_false, hp, if_pos]
        exact containsSub_append_left new _
      · simp only [listReplaceCore, hne, Bool.false_eq_true, if_false, hp, if_neg,
          not_false_iff]
        have hrest : containsSub rest old = true := by
          unfold containsSub at hc
          simp only [hp, Bool.false_eq_true, if_false] at hc
          exact hc
        refine containsSub_cons_of c _ _ (ih rest ?_ hrest)
        simpa using Nat.lt_succ_iff.mp (Nat.lt_of_lt_of_le (by simp) hs)

/-- When the pattern occurs in the text, its replacement occurs in the result
of Python's `str.replace`. -/
theorem containsSub_listReplace (s old new : Str) (hold : old ≠ [])
    (h : containsSub s old = true) :
    containsSub (listReplace s old new) new = true :=
  containsSub_listReplaceCore old new hold s.length s (Nat.le_refl _) h

/-- `getD` after `set` at an in-bounds index reads the written element. -/
theorem getD_set_self (l : List Str) (i : Nat) (a : Str) (h : i < l.length) :
    (l.set i a).getD i [] = a := by
  induction l generalizing i with
  | nil => simp at h
  | cons x xs ihl =>
    cases i with
    | zero => rfl
    | succ j =>
      simp only [List.set, List.getD, List.getElem?_cons_succ]
      have := ihl j (by simpa using Nat.lt_of_succ_lt_succ h)
      simpa [List.getD] using this

/-- Per-step count behavior of the replacement loop. -/
theorem replaceStep_fold_counts (lookupV : Str → Option Verse)
    (ps : List Placeholder) :
    ∀ st : Document × Nat × Nat × List Str,
      (ps.foldl (replaceStep lookupV) st).2.1
          = st.2.1 + ps.countP (fun p => (lookupV p.reference.canonical_reference).isSome)
      ∧ (ps.foldl (replaceStep lookupV) st).2.2.1
          = st.2.2.1 + ps.countP (fun p => (lookupV p.reference.canonical_reference).isNone) := by
  induction ps with
  | nil => intro st; simp
  | cons p ps ih =>
    rintro ⟨d, rep, fail, errs⟩
    simp only [List.foldl_cons, List.countP_cons]
    cases hl : lookupV p.reference.canonical_reference with
    | none =>
      have hstep : replaceStep lookupV (d, rep, fail, errs) p
          = (replaceInDocument d p (notFoundSentinel p.reference.canonical_reference),
             rep, fail + 1,
             errs ++ ["Verse not found in map: ".toList ++ p.reference.canonical_reference]) := by
        simp [replaceStep, hl]
      rw [hstep]
      obtain ⟨h1, h2⟩ := ih _
      constructor
      · rw [h1]; simp [hl]
      · rw [h2]; simp [hl]; omega
    | some v =>
      have hstep : replaceStep lookupV (d, rep, fail, errs) p
          = (replaceInDocument d p v.formatted_text, rep + 1, fail, errs) := by
        simp [replaceStep, hl]
      rw [hstep]
      obtain ⟨h1, h2⟩ := ih _
      constructor
      · rw [h1]; simp [hl]; omega
      · rw [h2]; simp [hl]

/-- A document whose only placeholder sits inside a table cell. -/
def tableOnlyDoc : Document :=
  ⟨[], [[[["\x7b\x7bJohn 3:16\x7d\x7d".toList]]]]⟩

/-- C4 counterexample: for a placeholder found in a table cell and missing
from the verse map, `placeholders_failed` becomes 1 and `success` is false,
but the document is returned completely unchanged — no paragraph or table
cell contains the `"[Verse Not Found: …]"` sentinel, because
`_replace_in_document` only ever edits body paragraphs. -/
theorem replace_missing_table_placeholder_no_sentinel :
    ((replace_placeholders {} tableOnlyDoc (fun _ => none)).2.placeholders_failed = 1)
    ∧ ((replace_placeholders {} tableOnlyDoc (fun _ => none)).2.success = false)
    ∧ ((replace_placeholders {} tableOnlyDoc (fun _ => none)).1 = tableOnlyDoc) := by
  decide

/-- C4 amended: `placeholders_failed` counts exactly the scanned placeholders
whose canonical reference misses the verse map, `placeholders_replaced` the
hits, and `success` is false precisely when a failure was counted; and at the
step where a missing placeholder is processed, if it lies in a body paragraph
that still contains its raw text, that paragraph afterwards contains the
literal `"[Verse Not Found: <reference>]"` sentinel and the failure count
increments by exactly one. (Placeholders found in table cells are counted
as failed without any sentinel being written anywhere.) -/
theorem replace_placeholders_missing_spec :
    (∀ (P : PlaceholderParser) (doc : Document) (lookupV : Str → Option Verse),
      (replace_placeholders P doc lookupV).2.placeholders_found
          = (find_all_placeholders P doc).length
      ∧ (replace_placeholders P doc lookupV).2.placeholders_replaced
          = (find_all_placeholders P doc).countP
              (fun p => (lookupV p.reference.canonical_reference).isSome)
      ∧ (replace_placeholders P doc lookupV).2.placeholders_failed
          = (find_all_placeholders P doc).countP
              (fun p => (lookupV p.reference.canonical_reference).isNone)
      ∧ ((replace_placeholders P doc lookupV).2.success = true
          ↔ (replace_placeholders P doc lookupV).2.placeholders_failed = 0))
    ∧ (∀ (lookupV : Str → Option Verse) (st : Document × Nat × Nat × List Str)
        (p : Placeholder),
        lookupV p.reference.canonical_reference = none →
        p.raw_text ≠ [] →
        p.paragraph_index < st.1.paragraphs.length →
        containsSub (st.1.paragraphs.getD p.paragraph_index []) p.raw_text = true →
        containsSub ((replaceStep lookupV st p).1.paragraphs.getD p.paragraph_index [])
            (notFoundSentinel p.reference.canonical_reference) = true
        ∧ (replaceStep lookupV st p).2.2.1 = st.2.2.1 + 1) := by
  constructor
  · intro P doc lookupV
    obtain ⟨h1, h2⟩ :=
      replaceStep_fold_counts lookupV (find_all_placeholders P doc) (doc, 0, 0, [])
    unfold replace_placeholders
    refine ⟨rfl, by simpa using h1, by simpa using h2, ?_⟩
    simp
  · rintro lookupV ⟨d, rep, fail, errs⟩ p hl hraw hidx hsub
    have hstep : replaceStep lookupV (d, rep, fail, errs) p
        = (replaceInDocument d p (notFoundSentinel p.reference.canonical_reference),
           rep, fail + 1,
           errs ++ ["Verse not found in map: ".toList ++ p.reference.canonical_reference]) := by
      simp [replaceStep, hl]
    rw [hstep]
    refine ⟨?_, rfl⟩
    unfold replaceInDocument
    simp only [hidx, if_pos, hsub, if_pos]
    rw [getD_set_self _ _ _ hidx]
    exact containsSub_listReplace _ _ _ hraw hsub

/-- The missing-verse document of the C4 witness: one body paragraph holding
one placeholder. -/
def bodyMissingDoc : Document := ⟨["See \x7b\x7bJohn 3:16\x7d\x7d.".toList], []⟩

/-- Witness for the amended C4, discharging the sentinel-part hypotheses at a
concrete body placeholder missing from an empty verse map. -/
theorem replace_placeholders_missing_spec_witness :
    containsSub
        ((replaceStep (fun _ => none)
            (bodyMissingDoc, 0, 0, [])
            ⟨"\x7b\x7bJohn 3:16\x7d\x7d".toList,
             ⟨"John".toList, 3, 16, none, .NIV⟩, 4, 0, .PENDING⟩).1.paragraphs.getD 0 [])
        (notFoundSentinel ("John 3:16".toList)) = true
    ∧ (replaceStep (fun _ => none)
        (bodyMissingDoc, 0, 0, [])
        ⟨"\x7b\x7bJohn 3:16\x7d\x7d".toList,
         ⟨"John".toList, 3, 16, none, .NIV⟩, 4, 0, .PENDING⟩).2.2.1 = 0 + 1 := by
  have h := replace_placeholders_missing_spec.2 (fun _ => none)
    (bodyMissingDoc, 0, 0, [])
    ⟨"\x7b\x7bJohn 3:16\x7d\x7d".toList,
     ⟨"John".toList, 3, 16, none, .NIV⟩, 4, 0, .PENDING⟩
    rfl (by decide) (by decide) (by decide)
  exact h

/-- Digit characters render with code `48 + d`. -/
theorem digitCh_toNat (d : Nat) (h : d < 10) : (digitCh d).toNat = 48 + d := by
  interval_cases d <;> decide

/-- Digit characters are digits. -/
theorem isDigitCh_digitCh (d : Nat) (h : d < 10) : isDigitCh (digitCh d) = true := by
  interval_cases d <;> decide

/-- `parseNatChars` distributes over a trailing digit. -/
theorem parseNatChars_append_digit (a : Str) (c : Char) :
    parseNatChars (a ++ [c]) = 10 * parseNatChars a + (c.toNat - 48) := by
  simp [parseNatChars, List.foldl_append]

/-- Core correctness of the decimal renderer: every character is a digit, the
result is nonempty, and reading it back returns the number. -/
theorem natCharsCore_spec :
    ∀ fuel n, n < fuel →
      (∀ c ∈ natCharsCore fuel n, isDigitCh c = true)
      ∧ natCharsCore fuel n ≠ []
      ∧ parseNatChars (natCharsCore fuel n) = n := by
  intro fuel
  induction fuel with
  | zero => intro n hn; omega
  | succ fuel ih =>
    intro n hn
    by_cases h10 : n < 10
    · refine ⟨?_, ?_, ?_⟩ <;> simp only [natCharsCore, h10, if_pos]
      · intro c hc
        simp only [List.mem_singleton] at hc
        rw [hc]
        exact isDigitCh_digitCh n h10
      · simp
      · simp [parseNatChars, digitCh_toNat n h10]
    · have hdiv : n / 10 < fuel := by
        have h1 : n / 10 < n := Nat.div_lt_self (by omega) (by omega)
        omega
      obtain ⟨ihd, ihne, ihp⟩ := ih (n / 10) hdiv
      refine ⟨?_, ?_, ?_⟩ <;> simp only [natCharsCore, h10, if_neg, not_false_iff]
      · intro c hc
        rcases List.mem_append.mp hc with hc | hc
        · exact ihd c hc
        · simp only [List.mem_singleton] at hc
          rw [hc]
          exact isDigitCh_digitCh _ (Nat.mod_lt _ (by omega))
      · simp
      · rw [parseNatChars_append_digit, ihp,
          digitCh_toNat _ (Nat.mod_lt _ (by omega))]
        omega

/-- All characters of `natChars n` are digits. -/
theorem natChars_digits (n : Nat) : ∀ c ∈ natChars n, isDigitCh c = true :=
  (natCharsCore_spec (n + 1) n (by omega)).1

/-- `natChars n` is nonempty. -/
theorem natChars_ne_nil (n : Nat) : natChars n ≠ [] :=
  (natCharsCore_spec (n + 1) n (by omega)).2.1

/-- Reading back a rendered number. -/
theorem parseNatChars_natChars (n : Nat) : parseNatChars (natChars n) = n :=
  (natCharsCore_spec (n + 1) n (by omega)).2.2

/-- An alphabetic character is not a digit. -/
theorem alpha_not_digit (c : Char) (h : isAlphaCh c = true) : isDigitCh c = false := by
  rw [Bool.eq_false_iff]
  intro hc
  simp only [isDigitCh, Bool.and_eq_true, decide_eq_true_eq] at hc
  simp only [isAlphaCh, Bool.or_eq_true, Bool.and_eq_true, decide_eq_true_eq] at h
  omega

/-- An alphabetic character is not whitespace. -/
theorem alpha_not_space (c : Char) (h : isAlphaCh c = true) : isSpaceCh c = false := by
  rw [Bool.eq_false_iff]
  intro hc
  simp only [isSpaceCh, Bool.or_eq_true, beq_iff_eq] at hc
  rcases hc with ((((hc | hc) | hc) | hc) | hc) | hc <;>
    (subst hc; revert h; decide)

/-- A digit character is not whitespace. -/
theorem digit_not_space (c : Char) (h : isDigitCh c = true) : isSpaceCh c = false := by
  rw [Bool.eq_false_iff]
  intro hc
  simp only [isSpaceCh, Bool.or_eq_true, beq_iff_eq] at hc
  rcases hc with ((((hc | hc) | hc) | hc) | hc) | hc <;>
    (subst hc; revert h; decide)

/-- A digit character is not alphabetic. -/
theorem digit_not_alpha (c : Char) (h : isDigitCh c = true) : isAlphaCh c = false := by
  rw [Bool.eq_false_iff]
  intro hc
  simp only [isAlphaCh, Bool.or_eq_true, Bool.and_eq_true, decide_eq_true_eq] at hc
  simp only [isDigitCh, Bool.and_eq_true, decide_eq_true_eq] at h
  omega

/-- `takeWhile` passes over a block of satisfying characters. -/
theorem takeWhile_app (p : Char → Bool) (a b : Str) (ha : ∀ c ∈ a, p c = true) :
    (a ++ b).takeWhile p = a ++ b.takeWhile p := by
  induction a with
  | nil => simp
  | cons c cs ih =>
    have hc : p c = true := ha c (by simp)
    simp only [List.cons_append, List.takeWhile_cons, hc, if_pos]
    rw [ih (fun x hx => ha x (by simp [hx]))]

/-- `dropWhile` passes over a block of satisfying characters. -/
theorem dropWhile_app (p : Char → Bool) (a b : Str) (ha : ∀ c ∈ a, p c = true) :
    (a ++ b).dropWhile p = b.dropWhile p := by
  induction a with
  | nil => simp
  | cons c cs ih =>
    have hc : p c = true := ha c (by simp)
    simp only [List.cons_append, List.dropWhile_cons, hc, if_pos]
    exact ih (fun x hx => ha x (by simp [hx]))

/-- `takeWhile` stops at a failing head. -/
theorem takeWhile_head_false (p : Char → Bool) :
    ∀ b : Str, (∀ c, b.head? = some c → p c = false) → b.takeWhile p = [] := by
  intro b hb
  cases b with
  | nil => rfl
  | cons c cs =>
    have := hb c rfl
    simp [List.takeWhile_cons, this]

/-- `dropWhile` stops at a failing head. -/
theorem dropWhile_head_false (p : Char → Bool) :
    ∀ b : Str, (∀ c, b.head? = some c → p c = false) → b.dropWhile p = b := by
  intro b hb
  cases b with
  | nil => rfl
  | cons c cs =>
    have := hb c rfl
    simp [List.dropWhile_cons, this]

/-- `natChars` exposed as a digit head and digit tail. -/
theorem natChars_head (n : Nat) :
    ∃ hd tl, natChars n = hd :: tl ∧ isDigitCh hd = true := by
  cases hnc : natChars n with
  | nil => exact absurd hnc (natChars_ne_nil n)
  | cons hd tl =>
    refine ⟨hd, tl, rfl, ?_⟩
    have := natChars_digits n hd (by rw [hnc]; simp)
    exact this

/-- The rendered range suffix of a canonical reference. -/
def rangeStr : Option Nat → Str
  | some e => '-' :: natChars e
  | none => []

/-- `takeWhile` keeps a fully satisfying list. -/
theorem takeWhile_all (p : Char → Bool) (a : Str) (ha : ∀ c ∈ a, p c = true) :
    a.takeWhile p = a := by
  induction a with
  | nil => rfl
  | cons c cs ih =>
    have hc : p c = true := ha c (by simp)
    simp only [List.takeWhile_cons, hc, if_pos]
    rw [ih (fun x hx => ha x (by simp [hx]))]

/-- `dropWhile` drops a fully satisfying list. -/
theorem dropWhile_all (p : Char → Bool) (a : Str) (ha : ∀ c ∈ a, p c = true) :
    a.dropWhile p = [] := by
  induction a with
  | nil => rfl
  | cons c cs ih =>
    have hc : p c = true := ha c (by simp)
    simp only [List.dropWhile_cons, hc, if_pos]
    exact ih (fun x hx => ha x (by simp [hx]))

/-- `refMatchTail` recognizes exactly the rendered numeric tail
`" C:V"` or `" C:V-V2"`, for all values. -/
theorem refMatchTail_spec (ch v1 : Nat) (v2 : Option Nat) :
    refMatchTail (' ' :: natChars ch ++ ':' :: natChars v1 ++ rangeStr v2)
      = some (ch, v1, v2) := by
  obtain ⟨h1, t1, hch, hd1⟩ := natChars_head ch
  cases v2 with
  | none =>
    simp only [rangeStr, List.append_nil, List.cons_append, List.append_assoc]
    have e1 : (' ' :: (natChars ch ++ ':' :: natChars v1)).takeWhile isSpaceCh = [' '] := by
      simp only [List.takeWhile_cons]
      rw [if_pos (by decide)]
      rw [takeWhile_head_false isSpaceCh _ (by
        intro c hc
        rw [hch] at hc
        simp only [List.cons_append, List.head?_cons, Option.some.injEq] at hc
        rw [← hc]
        exact digit_not_space h1 hd1)]
    have e2 : (' ' :: (natChars ch ++ ':' :: natChars v1)).dropWhile isSpaceCh
        = natChars ch ++ ':' :: natChars v1 := by
      simp only [List.dropWhile_cons]
      rw [if_pos (by decide)]
      exact dropWhile_head_false isSpaceCh _ (by
        intro c hc
        rw [hch] at hc
        simp only [List.cons_append, List.head?_cons, Option.some.injEq] at hc
        rw [← hc]
        exact digit_not_space h1 hd1)
    have e3 : (natChars ch ++ ':' :: natChars v1).takeWhile isDigitCh = natChars ch := by
      rw [takeWhile_app isDigitCh _ _ (natChars_digits ch)]
      rw [takeWhile_head_false isDigitCh _ (by intro c hc; cases hc; decide)]
      simp
    have e4 : (natChars ch ++ ':' :: natChars v1).dropWhile isDigitCh
        = ':' :: natChars v1 := by
      rw [dropWhile_app isDigitCh _ _ (natChars_digits ch)]
      exact dropWhile_head_false isDigitCh _ (by intro c hc; cases hc; decide)
    have e5 : (natChars v1).takeWhile isDigitCh = natChars v1 :=
      takeWhile_all isDigitCh _ (natChars_digits v1)
    have e6 : (natChars v1).dropWhile isDigitCh = [] :=
      dropWhile_all isDigitCh _ (natChars_digits v1)
    unfold refMatchTail
    rw [e1, e2]
    simp only [List.isEmpty_cons, Bool.false_eq_true, if_false, e3, e4]
    rw [if_neg (by simp [natChars_ne_nil ch])]
    simp only [e5, e6]
    rw [if_neg (by simp [natChars_ne_nil v1])]
    simp only [List.dropWhile_nil, parseNatChars_natChars]
    simp
  | some e =>
    simp only [rangeStr, List.cons_append, List.append_assoc]
    have e1 : (' ' :: (natChars ch ++ ':' :: (natChars v1 ++ '-' :: natChars e))).takeWhile
        isSpaceCh = [' '] := by
      simp only [List.takeWhile_cons]
      rw [if_pos (by decide)]
      rw [takeWhile_head_false isSpaceCh _ (by
        intro c hc
        rw [hch] at hc
        simp only [List.cons_append, List.head?_cons, Option.some.injEq] at hc
        rw [← hc]
        exact digit_not_space h1 hd1)]
    have e2 : (' ' :: (natChars ch ++ ':' :: (natChars v1 ++ '-' :: natChars e))).dropWhile
        isSpaceCh = natChars ch ++ ':' :: (natChars v1 ++ '-' :: natChars e) := by
      simp only [List.dropWhile_cons]
      rw [if_pos (by decide)]
      exact dropWhile_head_false isSpaceCh _ (by
        intro c hc
        rw [hch] at hc
        simp only [List.cons_append, List.head?_cons, Option.some.injEq] at hc
        rw [← hc]
        exact digit_not_space h1 hd1)
    have e3 : (natChars ch ++ ':' :: (natChars v1 ++ '-' :: natChars e)).takeWhile isDigitCh
        = natChars ch := by
      rw [takeWhile_app isDigitCh _ _ (natChars_digits ch)]
      rw [takeWhile_head_false isDigitCh _ (by intro c hc; cases hc; decide)]
      simp
    have e4 : (natChars ch ++ ':' :: (natChars v1 ++ '-' :: natChars e)).dropWhile isDigitCh
        = ':' :: (natChars v1 ++ '-' :: natChars e) := by
      rw [dropWhile_app isDigitCh _ _ (natChars_digits ch)]
      exact dropWhile_head_false isDigitCh _ (by intro c hc; cases hc; decide)
    have e5 : (natChars v1 ++ '-' :: natChars e).takeWhile isDigitCh = natChars v1 := by
      rw [takeWhile_app isDigitCh _ _ (natChars_digits v1)]
      rw [takeWhile_head_false isDigitCh _ (by intro c hc; cases hc; decide)]
      simp
    have e6 : (natChars v1 ++ '-' :: natChars e).dropWhile isDigitCh
        = '-' :: natChars e := by
      rw [dropWhile_app isDigitCh _ _ (natChars_digits v1)]
      exact dropWhile_head_false isDigitCh _ (by intro c hc; cases hc; decide)
    have e7 : (natChars e).takeWhile isDigitCh = natChars e :=
      takeWhile_all isDigitCh _ (natChars_digits e)
    have e8 : (natChars e).dropWhile isDigitCh = [] :=
      dropWhile_all isDigitCh _ (natChars_digits e)
    unfold refMatchTail
    rw [e1, e2]
    simp only [List.isEmpty_cons, Bool.false_eq_true, if_false, e3, e4]
    rw [if_neg (by simp [natChars_ne_nil ch])]
    simp only [e5, e6]
    rw [if_neg (by simp [natChars_ne_nil v1])]
    simp only [e7, e8]
    rw [if_neg (by simp [natChars_ne_nil e])]
    simp only [List.dropWhile_nil, parseNatChars_natChars]
    simp

/-- Literal-character class facts used at match boundaries. -/
theorem isAlphaCh_space : isAlphaCh ' ' = false := by decide

/-- A dot is not alphabetic. -/
theorem isAlphaCh_dot : isAlphaCh '.' = false := by decide

/-- `refPatternMatch` recognizes every composed canonical reference string
whose book has the regex's shape (optional digit, whitespace run, letters,
optional dot), capturing the book group verbatim. -/
theorem refPatternMatch_spec
    (dpart sp letters dot : Str) (ch v1 : Nat) (v2 : Option Nat)
    (hd : dpart = [] ∨ ∃ c, dpart = [c] ∧ isDigitCh c = true)
    (hsp : ∀ c ∈ sp, isSpaceCh c = true)
    (hsp0 : dpart = [] → sp = [])
    (hl : letters ≠ []) (hla : ∀ c ∈ letters, isAlphaCh c = true)
    (hdot : dot = [] ∨ dot = ['.']) :
    refPatternMatch ((dpart ++ sp ++ letters ++ dot)
        ++ ' ' :: (natChars ch ++ ':' :: (natChars v1 ++ rangeStr v2)))
      = some (dpart ++ sp ++ letters ++ dot, ch, v1, v2) := by
  obtain ⟨lh, lt, hlet⟩ : ∃ lh lt, letters = lh :: lt := by
    cases letters with
    | nil => exact absurd rfl hl
    | cons a b => exact ⟨a, b, rfl⟩
  have hlh : isAlphaCh lh = true := hla lh (by rw [hlet]; simp)
  have hTmatch : refMatchTail (' ' :: (natChars ch ++ ':' :: (natChars v1 ++ rangeStr v2)))
      = some (ch, v1, v2) := by
    have := refMatchTail_spec ch v1 v2
    simpa [List.cons_append, List.append_assoc] using this
  -- facts used at every boundary into the numeric tail
  have hsp_dot : ∀ c ∈ dot, isAlphaCh c = false := by
    rcases hdot with h | h <;> (subst h; intro c hc; simp at hc; try (subst hc; decide))
  rcases hd with hdn | ⟨c, hdc, hcdig⟩
  · -- no leading digit; then sp = []
    have hsp' := hsp0 hdn
    subst hdn hsp'
    rw [hlet]
    simp only [List.nil_append, List.cons_append, List.append_assoc]
    -- input: lh :: (lt ++ (dot ++ tail))
    unfold refPatternMatch
    rw [show List.dropWhile isSpaceCh
        (lh :: (lt ++ (dot ++ ' ' :: (natChars ch ++ ':' :: (natChars v1 ++ rangeStr v2)))))
        = lh :: (lt ++ (dot ++ ' ' :: (natChars ch ++ ':' :: (natChars v1 ++ rangeStr v2))))
      from by simp [List.dropWhile_cons, alpha_not_space lh hlh]]
    simp only [alpha_not_digit lh hlh, Bool.false_eq_true, if_false]
    rw [show List.takeWhile isSpaceCh
        (lh :: (lt ++ (dot ++ ' ' :: (natChars ch ++ ':' :: (natChars v1 ++ rangeStr v2)))))
        = [] from by simp [List.takeWhile_cons, alpha_not_space lh hlh]]
    rw [show List.dropWhile isSpaceCh
        (lh :: (lt ++ (dot ++ ' ' :: (natChars ch ++ ':' :: (natChars v1 ++ rangeStr v2)))))
        = lh :: (lt ++ (dot ++ ' ' :: (natChars ch ++ ':' :: (natChars v1 ++ rangeStr v2))))
      from by simp [List.dropWhile_cons, alpha_not_space lh hlh]]
    rw [show List.takeWhile isAlphaCh
        (lh :: (lt ++ (dot ++ ' ' :: (natChars ch ++ ':' :: (natChars v1 ++ rangeStr v2)))))
        = lh :: lt from by
      simp only [List.takeWhile_cons, hlh, if_pos]
      rw [takeWhile_app isAlphaCh lt _ (fun x hx => hla x (by rw [hlet]; simp [hx]))]
      rcases hdot with h | h <;> subst h
      · simp [List.takeWhile_cons, isAlphaCh_space]
      · simp [List.takeWhile_cons, isAlphaCh_dot]]
    simp only [List.isEmpty_cons, Bool.false_eq_true, if_false]
    rw [show List.dropWhile isAlphaCh
        (lh :: (lt ++ (dot ++ ' ' :: (natChars ch ++ ':' :: (natChars v1 ++ rangeStr v2)))))
        = dot ++ ' ' :: (natChars ch ++ ':' :: (natChars v1 ++ rangeStr v2)) from by
      simp only [List.dropWhile_cons, hlh, if_pos]
      rw [dropWhile_app isAlphaCh lt _ (fun x hx => hla x (by rw [hlet]; simp [hx]))]
      rcases hdot with h | h <;> subst h
      · simp [List.dropWhile_cons, isAlphaCh_space]
      · simp [List.dropWhile_cons, isAlphaCh_dot]]
    rcases hdot with h | h <;> subst h
    · simp [hTmatch]
    · simp [hTmatch]
  · -- leading digit c, then optional whitespace run sp
    subst hdc
    rw [hlet]
    simp only [List.cons_append, List.append_assoc, List.nil_append]
    unfold refPatternMatch
    rw [show List.dropWhile isSpaceCh
        (c :: (sp ++ (lh :: (lt ++ (dot ++ ' ' :: (natChars ch ++ ':' :: (natChars v1 ++ rangeStr v2)))))))
        = c :: (sp ++ (lh :: (lt ++ (dot ++ ' ' :: (natChars ch ++ ':' :: (natChars v1 ++ rangeStr v2))))))
      from by simp [List.dropWhile_cons, digit_not_space c hcdig]]
    simp only [hcdig, eq_self_iff_true, if_true]
    rw [show List.takeWhile isSpaceCh
        (sp ++ (lh :: (lt ++ (dot ++ ' ' :: (natChars ch ++ ':' :: (natChars v1 ++ rangeStr v2))))))
        = sp from by
      rw [takeWhile_app isSpaceCh sp _ hsp]
      simp [List.takeWhile_cons, alpha_not_space lh hlh]]
    rw [show List.dropWhile isSpaceCh
        (sp ++ (lh :: (lt ++ (dot ++ ' ' :: (natChars ch ++ ':' :: (natChars v1 ++ rangeStr v2))))))
        = lh :: (lt ++ (dot ++ ' ' :: (natChars ch ++ ':' :: (natChars v1 ++ rangeStr v2))))
      from by
      rw [dropWhile_app isSpaceCh sp _ hsp]
      simp [List.dropWhile_cons, alpha_not_space lh hlh]]
    rw [show List.takeWhile isAlphaCh
        (lh :: (lt ++ (dot ++ ' ' :: (natChars ch ++ ':' :: (natChars v1 ++ rangeStr v2)))))
        = lh :: lt from by
      simp only [List.takeWhile_cons, hlh, if_pos]
      rw [takeWhile_app isAlphaCh lt _ (fun x hx => hla x (by rw [hlet]; simp [hx]))]
      rcases hdot with h | h <;> subst h
      · simp [List.takeWhile_cons, isAlphaCh_space]
      · simp [List.takeWhile_cons, isAlphaCh_dot]]
    simp only [List.isEmpty_cons, Bool.false_eq_true, if_false]
    rw [show List.dropWhile isAlphaCh
        (lh :: (lt ++ (dot ++ ' ' :: (natChars ch ++ ':' :: (natChars v1 ++ rangeStr v2)))))
        = dot ++ ' ' :: (natChars ch ++ ':' :: (natChars v1 ++ rangeStr v2)) from by
      simp only [List.dropWhile_cons, hlh, if_pos]
      rw [dropWhile_app isAlphaCh lt _ (fun x hx => hla x (by rw [hlet]; simp [hx]))]
      rcases hdot with h | h <;> subst h
      · simp [List.dropWhile_cons, isAlphaCh_space]
      · simp [List.dropWhile_cons, isAlphaCh_dot]]
    rcases hdot with h | h <;> subst h
    · simp [hTmatch]
    · simp [hTmatch]

/-- `natChars` decomposed at its final digit. -/
theorem natChars_last (n : Nat) :
    ∃ a d, natChars n = a ++ [d] ∧ isDigitCh d = true := by
  have hne := natChars_ne_nil n
  refine ⟨(natChars n).dropLast, (natChars n).getLast hne,
    (List.dropLast_append_getLast hne).symm, ?_⟩
  exact natChars_digits n _ (List.getLast_mem hne)

/-- `strip` is the identity on a string with a non-space head and a trailing
digit. -/
theorem stripChars_append_digit (pre : Str) (d : Char) (hd : isDigitCh d = true)
    (hhead : ∀ c, (pre ++ [d]).head? = some c → isSpaceCh c = false) :
    stripChars (pre ++ [d]) = pre ++ [d] := by
  unfold stripChars
  rw [dropWhile_head_false _ _ hhead, List.reverse_append]
  simp only [List.reverse_cons, List.reverse_nil, List.nil_append, List.singleton_append]
  rw [List.dropWhile_cons]
  rw [digit_not_space d hd]
  simp

/-- `strip` is the identity on a string whose head and last character are not
whitespace. -/
theorem stripChars_eq_self (s : Str)
    (h1 : ∀ c, s.head? = some c → isSpaceCh c = false)
    (h2 : ∀ c, s.getLast? = some c → isSpaceCh c = false) :
    stripChars s = s := by
  unfold stripChars
  rw [dropWhile_head_false _ _ h1]
  rw [dropWhile_head_false _ _ (by
    intro c hc
    apply h2
    rwa [List.head?_reverse] at hc)]
  rw [List.reverse_reverse]

/-- Pydantic construction succeeds on in-bounds components with an already
stripped book, returning exactly those components. -/
theorem mkVerseReference_ok (book : Str) (hs : stripChars book = book)
    (ch v1 : Nat) (v2 : Option Nat) (t : TranslationType)
    (hb2 : 2 ≤ book.length) (hb50 : book.length ≤ 50)
    (hch1 : 1 ≤ ch) (hch150 : ch ≤ 150)
    (hv11 : 1 ≤ v1) (hv176 : v1 ≤ 176)
    (hv2r : ∀ e, v2 = some e → v1 < e ∧ e ≤ 176) :
    mkVerseReference book ch v1 v2 t = .ok ⟨book, ch, v1, v2, t⟩ := by
  simp only [mkVerseReference, hs]
  rw [if_neg (by simp only [Bool.or_eq_true, decide_eq_true_eq]; omega)]
  rw [if_neg (by simp only [Bool.or_eq_true, decide_eq_true_eq]; omega)]
  rw [if_neg (by simp only [Bool.or_eq_true, decide_eq_true_eq]; omega)]
  cases v2 with
  | none => rfl
  | some e =>
    obtain ⟨h1, h2⟩ := hv2r e rfl
    show (if (decide (e < 1) || decide (176 < e)) = true
        then (Except.error "end_verse out of range" : Except String VerseReference)
        else if e ≤ v1 then Except.error "end_verse must be greater than start_verse"
        else Except.ok ⟨book, ch, v1, some e, t⟩)
      = Except.ok ⟨book, ch, v1, some e, t⟩
    rw [if_neg (by simp only [Bool.or_eq_true, decide_eq_true_eq]; omega)]
    rw [if_neg (by omega)]

/-- C5: Round-trip reference parsing: every canonical reference string built
from a regex-shaped book (optional leading digit, whitespace run only after a
digit, letters, optional trailing dot), an in-bounds chapter and verse, and an
optional in-bounds end verse exceeding the start verse, parses to exactly its
components, and `canonical_reference` of the parsed value reproduces the
input string verbatim. -/
theorem parse_canonical_roundtrip
    (dpart sp letters dot : Str) (ch v1 : Nat) (v2 : Option Nat) (t : TranslationType)
    (hd : dpart = [] ∨ ∃ c, dpart = [c] ∧ isDigitCh c = true)
    (hsp : ∀ c ∈ sp, isSpaceCh c = true)
    (hsp0 : dpart = [] → sp = [])
    (hl : letters ≠ []) (hla : ∀ c ∈ letters, isAlphaCh c = true)
    (hdot : dot = [] ∨ dot = ['.'])
    (hlen2 : 2 ≤ (dpart ++ sp ++ letters ++ dot).length)
    (hlen50 : (dpart ++ sp ++ letters ++ dot).length ≤ 50)
    (hch1 : 1 ≤ ch) (hch150 : ch ≤ 150)
    (hv11 : 1 ≤ v1) (hv176 : v1 ≤ 176)
    (hv2r : ∀ e, v2 = some e → v1 < e ∧ e ≤ 176) :
    VerseReference.parse ((dpart ++ sp ++ letters ++ dot)
        ++ ' ' :: (natChars ch ++ ':' :: (natChars v1 ++ rangeStr v2))) t
      = .ok ⟨dpart ++ sp ++ letters ++ dot, ch, v1, v2, t⟩
    ∧ VerseReference.canonical_reference ⟨dpart ++ sp ++ letters ++ dot, ch, v1, v2, t⟩
      = (dpart ++ sp ++ letters ++ dot)
        ++ ' ' :: (natChars ch ++ ':' :: (natChars v1 ++ rangeStr v2)) := by
  obtain ⟨lh, lt, hlet⟩ : ∃ lh lt, letters = lh :: lt := by
    cases letters with
    | nil => exact absurd rfl hl
    | cons a b => exact ⟨a, b, rfl⟩
  have hlh : isAlphaCh lh = true := hla lh (by rw [hlet]; simp)
  -- head of the book (and of the whole string) is never whitespace
  have hbhead : ∀ (z : Str) (c : Char),
      ((dpart ++ sp ++ letters ++ dot) ++ z).head? = some c → isSpaceCh c = false := by
    intro z c hc
    rcases hd with hdn | ⟨c0, hdc, hcdig⟩
    · have hsp' := hsp0 hdn
      subst hdn hsp'
      rw [hlet] at hc
      simp only [List.nil_append, List.cons_append, List.head?_cons,
        Option.some.injEq] at hc
      rw [← hc]
      exact alpha_not_space lh hlh
    · subst hdc
      simp only [List.cons_append, List.head?_cons, Option.some.injEq] at hc
      rw [← hc]
      exact digit_not_space c0 hcdig
  -- the last character of the book is never whitespace
  have hblast : ∀ c, (dpart ++ sp ++ letters ++ dot).getLast? = some c →
      isSpaceCh c = false := by
    intro c hc
    rcases hdot with hdo | hdo
    · subst hdo
      have hdecomp : letters = letters.dropLast ++ [letters.getLast hl] :=
        (List.dropLast_append_getLast hl).symm
      rw [List.append_nil, show dpart ++ sp ++ letters
          = (dpart ++ sp ++ letters.dropLast) ++ [letters.getLast hl] from by
        rw [List.append_assoc, List.append_assoc, ← hdecomp, ← List.append_assoc]] at hc
      rw [List.getLast?_concat] at hc
      cases hc
      exact alpha_not_space _ (hla _ (List.getLast_mem hl))
    · subst hdo
      rw [show dpart ++ sp ++ letters ++ ['.'] = (dpart ++ sp ++ letters) ++ ['.'] from rfl,
        List.getLast?_concat] at hc
      cases hc
      decide
  have hbstrip : stripChars (dpart ++ sp ++ letters ++ dot) = dpart ++ sp ++ letters ++ dot :=
    stripChars_eq_self _ (by
      intro c hc
      have := hbhead [] c
      rw [List.append_nil] at this
      exact this hc) hblast
  -- the trailing number of the full string lets strip act as the identity
  cases v2 with
  | none =>
    obtain ⟨b, dd, hB, hdd⟩ := natChars_last v1
    have hsplit : (dpart ++ sp ++ letters ++ dot)
        ++ ' ' :: (natChars ch ++ ':' :: (natChars v1 ++ rangeStr none))
        = ((dpart ++ sp ++ letters ++ dot) ++ ' ' :: (natChars ch ++ ':' :: b)) ++ [dd] := by
      rw [hB]
      simp [rangeStr, List.append_assoc]
    have hstrip : stripChars ((dpart ++ sp ++ letters ++ dot)
        ++ ' ' :: (natChars ch ++ ':' :: (natChars v1 ++ rangeStr none)))
        = (dpart ++ sp ++ letters ++ dot)
          ++ ' ' :: (natChars ch ++ ':' :: (natChars v1 ++ rangeStr none)) := by
      rw [hsplit]
      refine stripChars_append_digit _ dd hdd ?_
      intro c hc
      rw [← hsplit] at hc
      exact hbhead _ c hc
    constructor
    · unfold VerseReference.parse
      rw [hstrip]
      rw [refPatternMatch_spec dpart sp letters dot ch v1 none hd hsp hsp0 hl hla hdot]
      show mkVerseReference (stripChars (dpart ++ sp ++ letters ++ dot)) ch v1 none t
          = Except.ok ⟨dpart ++ sp ++ letters ++ dot, ch, v1, none, t⟩
      rw [hbstrip]
      exact mkVerseReference_ok _ hbstrip ch v1 none t hlen2 hlen50 hch1 hch150 hv11 hv176
        (by intro e he; cases he)
    · unfold VerseReference.canonical_reference
      simp [rangeStr, List.append_assoc]
  | some e =>
    obtain ⟨hve, hve2⟩ := hv2r e rfl
    obtain ⟨b, dd, hB, hdd⟩ := natChars_last e
    have hsplit : (dpart ++ sp ++ letters ++ dot)
        ++ ' ' :: (natChars ch ++ ':' :: (natChars v1 ++ rangeStr (some e)))
        = ((dpart ++ sp ++ letters ++ dot)
            ++ ' ' :: (natChars ch ++ ':' :: (natChars v1 ++ '-' :: b))) ++ [dd] := by
      rw [show rangeStr (some e) = '-' :: natChars e from rfl, hB]
      simp [List.append_assoc]
    have hstrip : stripChars ((dpart ++ sp ++ letters ++ dot)
        ++ ' ' :: (natChars ch ++ ':' :: (natChars v1 ++ rangeStr (some e))))
        = (dpart ++ sp ++ letters ++ dot)
          ++ ' ' :: (natChars ch ++ ':' :: (natChars v1 ++ rangeStr (some e))) := by
      rw [hsplit]
      refine stripChars_append_digit _ dd hdd ?_
      intro c hc
      rw [← hsplit] at hc
      exact hbhead _ c hc
    constructor
    · unfold VerseReference.parse
      rw [hstrip]
      rw [refPatternMatch_spec dpart sp letters dot ch v1 (some e) hd hsp hsp0 hl hla hdot]
      show mkVerseReference (stripChars (dpart ++ sp ++ letters ++ dot)) ch v1 (some e) t
          = Except.ok ⟨dpart ++ sp ++ letters ++ dot, ch, v1, some e, t⟩
      rw [hbstrip]
      exact mkVerseReference_ok _ hbstrip ch v1 (some e) t hlen2 hlen50 hch1 hch150 hv11 hv176
        hv2r
    · unfold VerseReference.canonical_reference
      rw [show rangeStr (some e) = '-' :: natChars e from rfl]
      simp only
      rw [if_pos (by omega)]
      simp [List.append_assoc]

/-- Witness for C5 at the spec's example "John 3:16". -/
theorem parse_canonical_roundtrip_witness :
    VerseReference.parse "John 3:16".toList .NLT
      = .ok ⟨"John".toList, 3, 16, none, .NLT⟩
    ∧ VerseReference.canonical_reference ⟨"John".toList, 3, 16, none, .NLT⟩
      = "John 3:16".toList := by
  have h := parse_canonical_roundtrip [] [] "John".toList [] 3 16 none .NLT
    (Or.inl rfl) (by intro c hc; cases hc) (fun _ => rfl) (by decide) (by decide)
    (Or.inl rfl) (by decide) (by decide) (by decide) (by decide) (by decide) (by decide)
    (by intro e he; cases he)
  exact h
